import Mathlib

/-!
Verification of the gosignify core (`signify/signify.go`) against its
natural-language specification.

The Go code is shallowly embedded: byte strings are `List Nat` (each element a
byte value `< 256` where it matters), the filesystem is an association list
from file name to (mode, contents), standard input is a list of already-read
lines, and the external cryptographic primitives (ed25519, SHA-256/512,
bcrypt_pbkdf) are abstract function parameters bundled in a `Crypto` record,
exactly as the spec treats them ("capability interfaces with fixed semantics").
Observable side effects that the claims talk about (passphrase prompts,
signature computation) are recorded in an event trace.
-/

namespace Gosignify

/-- Errors returned by the embedded operations, mirroring the `errors.New` /
`fmt.Errorf` values in `signify.go`.  `errHelp` models `flag.ErrHelp`. -/
inductive Err
  | invalidComment
  | commentTooLong
  | missingNewline
  | invalidB64
  | unsupportedFile
  | shortRead
  | unsupportedKdf
  | wrongPassphrase
  | emptyPassword
  | unableToReadPass
  | passMismatch
  | fileExists
  | ioError
  | mustSpecifyPubkey
  | untrustedPath
  | wrongKey
  | verifyFailed
  | unknownAlgo
  | parseFailed
  | errHelp
deriving DecidableEq, Repr

/-- Observable events: a passphrase prompt (a `ReadBytes` from stdin in `kdf`)
and the computation of an ed25519 signature (`ed25519.Sign` in `sign`). -/
inductive Ev
  | prompt
  | signed
deriving DecidableEq, Repr

instance {ε α : Type} [DecidableEq ε] [DecidableEq α] : DecidableEq (Except ε α) := fun a b =>
  match a, b with
  | Except.error x, Except.error y =>
    if h : x = y then isTrue (by rw [h]) else isFalse (fun hh => by cases hh; exact h rfl)
  | Except.ok x, Except.ok y =>
    if h : x = y then isTrue (by rw [h]) else isFalse (fun hh => by cases hh; exact h rfl)
  | Except.error _, Except.ok _ => isFalse (fun hh => by cases hh)
  | Except.ok _, Except.error _ => isFalse (fun hh => by cases hh)

/-- Byte string "untrusted comment: " (ASCII), the fixed comment header. -/
def COMMENTHDR : List Nat := [117, 110, 116, 114, 117, 115, 116, 101, 100, 32, 99, 111, 109, 109, 101, 110, 116, 58, 32]

/-- Byte string "Ed" (ASCII), the signature algorithm tag. -/
def PKALG : List Nat := [69, 100]

/-- Byte string "BK" (ASCII), the KDF algorithm tag. -/
def KDFALG : List Nat := [66, 75]

/-- Byte string "verify with " (ASCII). -/
def VERIFYWITH : List Nat := [118, 101, 114, 105, 102, 121, 32, 119, 105, 116, 104, 32]

/-- Byte string "/etc/signify/" (ASCII), the fixed trusted directory. -/
def SAFEPATH : List Nat := [47, 101, 116, 99, 47, 115, 105, 103, 110, 105, 102, 121, 47]

/-- Byte string "/../" (ASCII), the substring rejected by `readpubkey`. -/
def SLASHDOTSLASH : List Nat := [47, 46, 46, 47]

/-- Byte string ".sec" (ASCII). -/
def DOTSEC : List Nat := [46, 115, 101, 99]

/-- Byte string ".pub" (ASCII). -/
def DOTPUB : List Nat := [46, 112, 117, 98]

/-- Byte string " secret key" (ASCII). -/
def SECSUF : List Nat := [32, 115, 101, 99, 114, 101, 116, 32, 107, 101, 121]

/-- Byte string " public key" (ASCII). -/
def PUBSUF : List Nat := [32, 112, 117, 98, 108, 105, 99, 32, 107, 101, 121]

/-- Byte string "signature from " (ASCII). -/
def SIGFROM : List Nat := [115, 105, 103, 110, 97, 116, 117, 114, 101, 32, 102, 114, 111, 109, 32]

/-- Byte string "Signature Verified" (ASCII), printed on verification success. -/
def OKMSG : List Nat := [83, 105, 103, 110, 97, 116, 117, 114, 101, 32, 86, 101, 114, 105, 102, 105, 101, 100]

/-- Byte string "SHA256" (ASCII). -/
def SHA256A : List Nat := [83, 72, 65, 50, 53, 54]

/-- Byte string "SHA512" (ASCII). -/
def SHA512A : List Nat := [83, 72, 65, 53, 49, 50]

/-- Byte string "-" (ASCII), the reserved stdin/stdout path token. -/
def DASH : List Nat := [45]

/-- Byte string ".." (ASCII), a parent-directory path segment. -/
def DOTDOT : List Nat := [46, 46]

/-- Abstract cryptographic primitives, as in the spec "treated as capability
interfaces with fixed semantics, not reimplemented": `ed25519.Sign`,
`ed25519.Verify`, `hash.SHA512`, `hash.SHA256`, `bcrypt_pbkdf.Key`. -/
structure Crypto where
  edSign : List Nat → List Nat → List Nat
  edVerify : List Nat → List Nat → List Nat → Bool
  sha512 : List Nat → List Nat
  sha256 : List Nat → List Nat
  bcryptPbkdf : List Nat → List Nat → Nat → Nat → List Nat

/-- Well-formedness of the abstract primitives: output sizes and byte ranges
matching `ed25519.SignatureSize = 64` and `sha512.Size = 64`. -/
structure CryptoGood (C : Crypto) : Prop where
  sha512_len : ∀ b, (C.sha512 b).length = 64
  sha512_lt : ∀ b x, x ∈ C.sha512 b → x < 256
  edSign_len : ∀ k m, (C.edSign k m).length = 64
  edSign_lt : ∀ k m x, x ∈ C.edSign k m → x < 256

/-- A concrete instantiation of the abstract primitives, used to evaluate the
model at concrete inputs. -/
def toyCrypto : Crypto where
  edSign := fun _ _ => List.replicate 64 7
  edVerify := fun p _ s => s == p ++ p
  sha512 := fun _ => List.replicate 64 0
  sha256 := fun _ => List.replicate 32 0
  bcryptPbkdf := fun _ _ _ n => List.replicate n 0

theorem toyCryptoGood : CryptoGood toyCrypto := by
  refine ⟨fun b => rfl, fun b x hx => ?_, fun k m => rfl, fun k m x hx => ?_⟩
  · have := List.eq_of_mem_replicate hx
    omega
  · have := List.eq_of_mem_replicate hx
    omega

/-- `binary.BigEndian.PutUint32`: the 4 big-endian bytes of `uint32(n)`. -/
def be32 (n : Nat) : List Nat :=
  [n % 4294967296 / 16777216, n % 4294967296 / 65536 % 256, n % 4294967296 / 256 % 256, n % 4294967296 % 256]

/-- `binary.BigEndian.Uint32` on a 4-byte string. -/
def be32toNat : List Nat → Nat
  | [a, b, c, d] => a * 16777216 + b * 65536 + c * 256 + d
  | _ => 0

/-- Byte-wise XOR of two byte strings (`enckey.Seckey[i] ^= xorkey[i]`). -/
def xorBytes (a b : List Nat) : List Nat := List.zipWith (fun x y => x ^^^ y) a b

/-- Boolean prefix test (`strings.HasPrefix`). -/
def isPrefixB : List Nat → List Nat → Bool
  | [], _ => true
  | _ :: _, [] => false
  | a :: as, b :: bs => a == b && isPrefixB as bs

/-- Substring test (`strings.Contains`). -/
def containsSub (needle : List Nat) : List Nat → Bool
  | [] => needle.isEmpty
  | x :: t => isPrefixB needle (x :: t) || containsSub needle t

/-- `strings.SplitAfterN(s, sep, 2)[1]`: the text after the first occurrence of
`needle` (meaningful when `containsSub needle s` holds). -/
def afterFirst (needle : List Nat) : List Nat → List Nat
  | [] => []
  | x :: t => if isPrefixB needle (x :: t) then (x :: t).drop needle.length else afterFirst needle t

/-- Boolean suffix test (`strings.HasSuffix`). -/
def hasSuffixB (suf l : List Nat) : Bool := isPrefixB suf.reverse l.reverse

/-- `strings.TrimSuffix`. -/
def trimSuffixB (suf l : List Nat) : List Nat :=
  if hasSuffixB suf l then l.take (l.length - suf.length) else l

/-- Split off the first newline-terminated chunk: `some (prefixWithNl, rest)`
when a newline (byte 10) exists, `none` otherwise.  This is the building block
for `strings.SplitAfterN(s, "\n", 3)`. -/
def splitAfter1 : List Nat → Option (List Nat × List Nat)
  | [] => none
  | x :: t =>
    if x = 10 then some ([10], t)
    else
      match splitAfter1 t with
      | none => none
      | some (a, r) => some (x :: a, r)

/-- The standard base64 alphabet character for a 6-bit value. -/
def b64chr (n : Nat) : Nat :=
  if n < 26 then 65 + n
  else if n < 52 then 97 + (n - 26)
  else if n < 62 then 48 + (n - 52)
  else if n = 62 then 43
  else 47

/-- Inverse of the base64 alphabet; `none` for characters outside it. -/
def b64dec (c : Nat) : Option Nat :=
  if 65 ≤ c ∧ c ≤ 90 then some (c - 65)
  else if 97 ≤ c ∧ c ≤ 122 then some (c - 97 + 26)
  else if 48 ≤ c ∧ c ≤ 57 then some (c - 48 + 52)
  else if c = 43 then some 62
  else if c = 47 then some 63
  else none

/-- `base64.StdEncoding.Encode` (with `=` padding, byte value 61). -/
def b64encode : List Nat → List Nat
  | [] => []
  | [a] => [b64chr (a / 4), b64chr (a % 4 * 16), 61, 61]
  | [a, b] => [b64chr (a / 4), b64chr (a % 4 * 16 + b / 16), b64chr (b % 16 * 4), 61]
  | a :: b :: c :: rest =>
    b64chr (a / 4) :: b64chr (a % 4 * 16 + b / 16) :: b64chr (b % 16 * 4 + c / 64) ::
      b64chr (c % 64) :: b64encode rest

/-- `base64.StdEncoding.DecodeString` on a single line (no embedded newlines):
quads of alphabet characters, with `=` padding only at the very end. -/
def b64decode : List Nat → Option (List Nat)
  | [] => some []
  | c1 :: c2 :: c3 :: c4 :: rest =>
    match b64dec c1, b64dec c2 with
    | some w, some x =>
      if c3 = 61 then
        if c4 = 61 ∧ rest = [] then some [w * 4 + x / 16] else none
      else
        match b64dec c3 with
        | some y =>
          if c4 = 61 then
            if rest = [] then some [w * 4 + x / 16, x % 16 * 16 + y / 4] else none
          else
            match b64dec c4 with
            | some z =>
              match b64decode rest with
              | some tail => some ((w * 4 + x / 16) :: (x % 16 * 16 + y / 4) :: (y % 4 * 64 + z) :: tail)
              | none => none
            | none => none
        | none => none
    | _, _ => none
  | _ => none

/-- Lowercase hex digit character for a value `< 16` (`encoding/hex`). -/
def hexDigit (n : Nat) : Nat := if n < 10 then 48 + n else 87 + n

/-- `hex.EncodeToString`: lowercase hex encoding of a byte string. -/
def hexEncode (l : List Nat) : List Nat :=
  l.foldr (fun b acc => hexDigit (b / 16) :: hexDigit (b % 16) :: acc) []

/-- The `enckey` struct of `signify.go`, each field as its byte string. -/
structure Enckey where
  pkalg : List Nat
  kdfalg : List Nat
  kdfrounds : List Nat
  salt : List Nat
  checksum : List Nat
  keynum : List Nat
  seckey : List Nat
deriving DecidableEq, Repr

/-- The `pubkey` struct of `signify.go`. -/
structure Pubkey where
  pkalg : List Nat
  keynum : List Nat
  pubdata : List Nat
deriving DecidableEq, Repr

/-- The `sig` struct of `signify.go`. -/
structure Sig where
  pkalg : List Nat
  keynum : List Nat
  sigdata : List Nat
deriving DecidableEq, Repr

/-- `binary.Write(buf, binary.BigEndian, &enckey)`: fields concatenated in
declared order (2+2+4+16+8+8+64 = 104 bytes). -/
def encodeEnckey (e : Enckey) : List Nat :=
  e.pkalg ++ e.kdfalg ++ e.kdfrounds ++ e.salt ++ e.checksum ++ e.keynum ++ e.seckey

/-- `binary.Write` for `pubkey` (2+8+32 = 42 bytes). -/
def encodePubkey (p : Pubkey) : List Nat := p.pkalg ++ p.keynum ++ p.pubdata

/-- `binary.Write` for `sig` (2+8+64 = 74 bytes). -/
def encodeSig (s : Sig) : List Nat := s.pkalg ++ s.keynum ++ s.sigdata

/-- `binary.Read(bytes.NewReader(buf), binary.BigEndian, &enckey)`: sequential
fixed-width reads; fails (`none`) when the buffer is shorter than the struct. -/
def decodeEnckey (b : List Nat) : Option Enckey :=
  if 104 ≤ b.length then
    some { pkalg := b.take 2, kdfalg := (b.drop 2).take 2, kdfrounds := ((b.drop 2).drop 2).take 4,
           salt := (((b.drop 2).drop 2).drop 4).take 16,
           checksum := ((((b.drop 2).drop 2).drop 4).drop 16).take 8,
           keynum := (((((b.drop 2).drop 2).drop 4).drop 16).drop 8).take 8,
           seckey := ((((((b.drop 2).drop 2).drop 4).drop 16).drop 8).drop 8).take 64 }
  else none

/-- `binary.Read` for `pubkey`. -/
def decodePubkey (b : List Nat) : Option Pubkey :=
  if 42 ≤ b.length then
    some { pkalg := b.take 2, keynum := (b.drop 2).take 8, pubdata := ((b.drop 2).drop 8).take 32 }
  else none

/-- `binary.Read` for `sig`. -/
def decodeSig (b : List Nat) : Option Sig :=
  if 74 ≤ b.length then
    some { pkalg := b.take 2, keynum := (b.drop 2).take 8, sigdata := ((b.drop 2).drop 8).take 64 }
  else none

/-- The filesystem: an association list of (file name, (mode, contents)). -/
abbrev FS := List (List Nat × Nat × List Nat)

/-- Look a file up by name. -/
def lookupFS : FS → List Nat → Option (Nat × List Nat)
  | [], _ => none
  | (n, m, c) :: rest, f => if n = f then some (m, c) else lookupFS rest f

/-- Create or overwrite a file.  An existing file keeps its mode (POSIX
`open` only applies the mode argument when creating). -/
def setFile : FS → List Nat → Nat → List Nat → FS
  | [], f, m, c => [(f, m, c)]
  | (n, m0, c0) :: rest, f, m, c =>
    if n = f then (n, m0, c) :: rest else (n, m0, c0) :: setFile rest f m c

/-- `parseb64file`: split the input into comment line, base64 line and trailing
message, with exactly the checks of the Go function (comment-header prefix,
comment length strictly below 1024 counted without its newline, newline after
the base64, base64 validity, blob length and `Ed` algorithm tag). -/
def parseb64file (b : List Nat) : Except Err (List Nat × List Nat × List Nat) :=
  match splitAfter1 b with
  | none => Except.error Err.invalidComment
  | some (l0, r) =>
    if isPrefixB COMMENTHDR l0 = false then Except.error Err.invalidComment
    else
      let commentLine := l0.dropLast
      if 1024 ≤ commentLine.length then Except.error Err.commentTooLong
      else
        let comment := commentLine.drop 19
        match splitAfter1 r with
        | none => Except.error Err.missingNewline
        | some (l1, msg) =>
          match b64decode l1.dropLast with
          | none => Except.error Err.invalidB64
          | some buf =>
            if buf.length < 2 ∨ buf.take 2 ≠ PKALG then Except.error Err.unsupportedFile
            else Except.ok (comment, buf, msg)

/-- The byte contents written by a successful `writeb64file`:
`header + comment + "\n" + base64(data) + "\n" + trailing message`. -/
def b64FileContent (comment data msg : List Nat) : List Nat :=
  COMMENTHDR ++ comment ++ [10] ++ b64encode data ++ [10] ++ msg

/-- `writeb64file`: open with `O_CREATE` (exclusive when `excl`, truncating
otherwise — the file is created/truncated before the length check, as in the
Go code), fail when `header+comment+"\n"` reaches 1024 bytes, else write the
envelope.  Writing to `"-"` (stdout) skips the exclusive-create check. -/
def writeb64file (fs : FS) (fname comment data msg : List Nat) (excl : Bool) (mode : Nat) :
    Except Err Unit × FS :=
  if excl = true ∧ fname ≠ DASH ∧ (lookupFS fs fname).isSome = true then
    (Except.error Err.fileExists, fs)
  else
    let fs1 := setFile fs fname mode []
    if 1024 ≤ (COMMENTHDR ++ comment ++ [10]).length then (Except.error Err.commentTooLong, fs1)
    else (Except.ok (), setFile fs1 fname mode (b64FileContent comment data msg))

/-- `readb64file`: read a file and parse it, returning (comment, blob). -/
def readb64file (fs : FS) (f : List Nat) : Except Err (List Nat × List Nat) :=
  match lookupFS fs f with
  | none => Except.error Err.ioError
  | some (_, content) =>
    match parseb64file content with
    | Except.error e => Except.error e
    | Except.ok (comment, buf, _) => Except.ok (comment, buf)

/-- `kdf`: rounds = 0 yields the all-zero mask without touching stdin;
otherwise a passphrase line (terminated by byte 10) is read, a bare newline is
rejected, an optional confirmation line must match byte-for-byte, and the line
minus its final two bytes (`pass[0 : len(pass)-2]`) is stretched with
bcrypt_pbkdf.  Returns (result, remaining stdin, prompt events). -/
def kdf (C : Crypto) (stdin : List (List Nat)) (salt : List Nat) (rounds : Nat) (confirm : Bool)
    (keylen : Nat) : Except Err (List Nat) × List (List Nat) × List Ev :=
  if rounds = 0 then (Except.ok (List.replicate keylen 0), stdin, [])
  else
    match stdin with
    | [] => (Except.error Err.unableToReadPass, [], [Ev.prompt])
    | pass :: rest =>
      if pass.length = 1 then (Except.error Err.emptyPassword, rest, [Ev.prompt])
      else if confirm then
        match rest with
        | [] => (Except.error Err.ioError, [], [Ev.prompt, Ev.prompt])
        | pass2 :: rest2 =>
          if pass ≠ pass2 then (Except.error Err.passMismatch, rest2, [Ev.prompt, Ev.prompt])
          else
            (Except.ok (C.bcryptPbkdf (pass.take (pass.length - 2)) salt rounds keylen), rest2,
              [Ev.prompt, Ev.prompt])
      else
        (Except.ok (C.bcryptPbkdf (pass.take (pass.length - 2)) salt rounds keylen), rest,
          [Ev.prompt])

/-- The `enckey` record built by `generate`: checksum is the first 8 bytes of
the SHA-512 of the raw secret key, the stored secret key is XOR-masked. -/
def genEnckey (C : Crypto) (sk keynum salt : List Nat) (rounds : Nat) (mask : List Nat) : Enckey :=
  { pkalg := PKALG, kdfalg := KDFALG, kdfrounds := be32 rounds, salt := salt,
    checksum := (C.sha512 sk).take 8, keynum := keynum, seckey := xorBytes sk mask }

/-- The `pubkey` record built by `generate`. -/
def genPubkey (pub keynum : List Nat) : Pubkey :=
  { pkalg := PKALG, keynum := keynum, pubdata := pub }

/-- `generate`: derive the mask, build the envelopes, and write the secret key
file (exclusive create, mode 0600 = 384) followed by the public key file
(exclusive create, mode 0666 = 438).  The fresh randomness (key pair, key
number, salt) is passed in explicitly.  Each comment is suffixed and checked
against the length bound before its write, exactly as in the Go code. -/
def generate (C : Crypto) (fs : FS) (stdin : List (List Nat)) (pub sk keynum salt : List Nat)
    (pubkeyfile seckeyfile : List Nat) (rounds : Nat) (comment : List Nat) :
    Except Err Unit × FS × List Ev :=
  match kdf C stdin salt rounds true 64 with
  | (Except.error e, _, ev) => (Except.error e, fs, ev)
  | (Except.ok mask, _, ev) =>
    let commentS := comment ++ SECSUF
    if 1024 ≤ commentS.length then (Except.error Err.commentTooLong, fs, ev)
    else
      match writeb64file fs seckeyfile commentS
          (encodeEnckey (genEnckey C sk keynum salt rounds mask)) [] true 384 with
      | (Except.error e, fs1) => (Except.error e, fs1, ev)
      | (Except.ok _, fs1) =>
        let commentP := comment ++ PUBSUF
        if 1024 ≤ commentP.length then (Except.error Err.commentTooLong, fs1, ev)
        else
          match writeb64file fs1 pubkeyfile commentP
              (encodePubkey (genPubkey pub keynum)) [] true 438 with
          | (Except.error e, fs2) => (Except.error e, fs2, ev)
          | (Except.ok _, fs2) => (Except.ok (), fs2, ev)

/-- The signature comment built by `sign`: "verify with `<prefix>`.pub" when
the secret key file name ends in ".sec", else "signature from `<comment>`".
Both branches of the Go code check the same constructed comment against the
same bound, so the bound check is applied once to the result. -/
def sigCommentOf (seckeyfile comment : List Nat) : List Nat :=
  if hasSuffixB DOTSEC seckeyfile then VERIFYWITH ++ trimSuffixB DOTSEC seckeyfile ++ DOTPUB
  else SIGFROM ++ comment

/-- `sign`: read and decode the secret-key envelope, check the KDF tag, derive
the mask from the stored salt and round count, unmask, compare the first 8
bytes of the SHA-512 of the unmasked key against the stored checksum (mismatch
is the wrong-passphrase error), read the message, compute the signature
(recorded as event `Ev.signed`), build the signature comment, and write the
signature envelope (truncating, mode 0666), with the message appended when
`embedded`. -/
def sign (C : Crypto) (fs : FS) (stdin : List (List Nat)) (seckeyfile msgfile sigfile : List Nat)
    (embedded : Bool) : Except Err Unit × FS × List Ev :=
  match readb64file fs seckeyfile with
  | Except.error e => (Except.error e, fs, [])
  | Except.ok (comment, buf) =>
    match decodeEnckey buf with
    | none => (Except.error Err.shortRead, fs, [])
    | some e =>
      if e.kdfalg ≠ KDFALG then (Except.error Err.unsupportedKdf, fs, [])
      else
        match kdf C stdin e.salt (be32toNat e.kdfrounds) false 64 with
        | (Except.error er, _, ev) => (Except.error er, fs, ev)
        | (Except.ok mask, _, ev) =>
          let unmasked := xorBytes e.seckey mask
          if e.checksum ≠ (C.sha512 unmasked).take 8 then
            (Except.error Err.wrongPassphrase, fs, ev)
          else
            match lookupFS fs msgfile with
            | none => (Except.error Err.ioError, fs, ev)
            | some (_, msg) =>
              let s : Sig := { pkalg := PKALG, keynum := e.keynum, sigdata := C.edSign unmasked msg }
              let ev2 := ev ++ [Ev.signed]
              let sigcomment := sigCommentOf seckeyfile comment
              if 1024 ≤ sigcomment.length then (Except.error Err.commentTooLong, fs, ev2)
              else
                match writeb64file fs sigfile sigcomment (encodeSig s)
                    (if embedded then msg else []) false 438 with
                | (Except.error er, fs1) => (Except.error er, fs1, ev2)
                | (Except.ok _, fs1) => (Except.ok (), fs1, ev2)

/-- `verifymsg`: key-identifier comparison, then the cryptographic check, then
the fixed confirmation line (suppressed in quiet mode).  The second component
collects printed lines. -/
def verifymsg (C : Crypto) (pk : Pubkey) (msg : List Nat) (s : Sig) (quiet : Bool) :
    Except Err Unit × List (List Nat) :=
  if pk.keynum ≠ s.keynum then (Except.error Err.wrongKey, [])
  else if C.edVerify pk.pubdata msg s.sigdata = false then (Except.error Err.verifyFailed, [])
  else (Except.ok (), if quiet then [] else [OKMSG])

/-- `readpubkey`: an explicit public-key path is read directly; with no path,
the path is recovered from the signature comment's "verify with " marker and
rejected (`untrustedPath`) unless it starts with the trusted directory and
does not contain the substring "/../". -/
def readpubkey (fs : FS) (pubkeyfile sigcomment : List Nat) : Except Err (List Nat) :=
  if pubkeyfile = [] then
    if containsSub VERIFYWITH sigcomment then
      let pf := afterFirst VERIFYWITH sigcomment
      if (!isPrefixB SAFEPATH pf || containsSub SLASHDOTSLASH pf) = true then
        Except.error Err.untrustedPath
      else
        match readb64file fs pf with
        | Except.error e => Except.error e
        | Except.ok (_, buf) => Except.ok buf
    else Except.error Err.mustSpecifyPubkey
  else
    match readb64file fs pubkeyfile with
    | Except.error e => Except.error e
    | Except.ok (_, buf) => Except.ok buf

/-- `verifysimple` (detached verification).  As in the Go code, a failure of
`readpubkey` is not checked directly: the nil buffer then makes the
`binary.Read` fail (modelled by `decodePubkey [] = none`). -/
def verifysimple (C : Crypto) (fs : FS) (pubkeyfile msgfile sigfile : List Nat) (quiet : Bool) :
    Except Err Unit × List (List Nat) :=
  match lookupFS fs msgfile with
  | none => (Except.error Err.ioError, [])
  | some (_, msg) =>
    match readb64file fs sigfile with
    | Except.error e => (Except.error e, [])
    | Except.ok (sigcomment, buf) =>
      match decodeSig buf with
      | none => (Except.error Err.shortRead, [])
      | some s =>
        let buf2 := match readpubkey fs pubkeyfile sigcomment with
          | Except.ok b => b
          | Except.error _ => []
        match decodePubkey buf2 with
        | none => (Except.error Err.shortRead, [])
        | some pk => verifymsg C pk msg s quiet

/-- `verifyembedded`: the signature file itself is the envelope and its
trailing bytes are the message; on success the recovered message is returned. -/
def verifyembedded (C : Crypto) (fs : FS) (pubkeyfile sigfile : List Nat) (quiet : Bool) :
    Except Err (List Nat) × List (List Nat) :=
  match lookupFS fs sigfile with
  | none => (Except.error Err.ioError, [])
  | some (_, raw) =>
    match parseb64file raw with
    | Except.error e => (Except.error e, [])
    | Except.ok (sigcomment, buf, msg) =>
      match decodeSig buf with
      | none => (Except.error Err.shortRead, [])
      | some s =>
        let buf2 := match readpubkey fs pubkeyfile sigcomment with
          | Except.ok b => b
          | Except.error _ => []
        match decodePubkey buf2 with
        | none => (Except.error Err.shortRead, [])
        | some pk =>
          match verifymsg C pk msg s quiet with
          | (Except.error e, out) => (Except.error e, out)
          | (Except.ok _, out) => (Except.ok msg, out)

/-- A parsed checksum-manifest record (`type checksum` in `signify.go`). -/
structure Checksum where
  algo : List Nat
  file : List Nat
  hash : List Nat
deriving DecidableEq, Repr

/-- Whitespace for `fmt.Sscanf` token splitting (space and tab). -/
def isSp (c : Nat) : Bool := c == 32 || c == 9

/-- Drop leading whitespace. -/
def dropSp (l : List Nat) : List Nat := l.dropWhile (fun c => isSp c)

/-- Read one maximal non-whitespace token, returning (token, rest). -/
def tok (l : List Nat) : List Nat × List Nat :=
  (l.takeWhile (fun c => !isSp c), l.dropWhile (fun c => !isSp c))

/-- `fmt.Sscanf(line, "%s (%s = %s", ...)`: three space-delimited tokens with
the literals `(` (byte 40) and `=` (byte 61) in between.  Note the `)` stays
attached to the file token, as in the Go code. -/
def bsdScan (l : List Nat) : Option (List Nat × List Nat × List Nat) :=
  let p1 := tok (dropSp l)
  if p1.1 = [] then none
  else
    match dropSp p1.2 with
    | 40 :: r3 =>
      let p2 := tok (dropSp r3)
      if p2.1 = [] then none
      else
        match dropSp p2.2 with
        | 61 :: r7 =>
          let p3 := tok (dropSp r7)
          if p3.1 = [] then none else some (p1.1, p2.1, p3.1)
        | _ => none
    | _ => none

/-- `fmt.Sscanf(line, "%s  %s", ...)`: two space-delimited tokens. -/
def linuxScan (l : List Nat) : Option (List Nat × List Nat) :=
  let p1 := tok (dropSp l)
  if p1.1 = [] then none
  else
    let p2 := tok (dropSp p1.2)
    if p2.1 = [] then none else some (p1.1, p2.1)

/-- `setAlgo`: infer the algorithm from the digest length. -/
def setAlgoLen (n : Nat) : Option (List Nat) :=
  if n = 64 then some SHA256A else if n = 128 then some SHA512A else none

/-- `strings.TrimSuffix(c.file, ")")` (applied to both line shapes). -/
def trimParen (l : List Nat) : List Nat := if l.getLast? = some 41 then l.dropLast else l

/-- One manifest line: try the BSD shape, then the Linux shape with algorithm
inference; `none` is the hard parse failure for the whole manifest. -/
def parseChecksumLine (l : List Nat) : Option Checksum :=
  match bsdScan l with
  | some (a, f, h) => some { algo := a, file := trimParen f, hash := h }
  | none =>
    match linuxScan l with
    | none => none
    | some (f, h) =>
      match setAlgoLen h.length with
      | none => none
      | some a => some { algo := a, file := trimParen f, hash := h }

/-- `recodehash`: a digest of exactly `2*size` characters is taken as hex;
otherwise it must be base64 and is re-encoded as lowercase hex. -/
def recodehash (h : List Nat) (size : Nat) : Option (List Nat) :=
  if h.length = 2 * size then some h
  else
    match b64decode h with
    | none => none
    | some b => some (hexEncode b)

/-- `verifychecksum`.  The file-hashing helpers `hash.SHA256File` /
`hash.SHA512File` live in `internal/hash`, which is not part of the sources;
modelled from the spec: "Recomputes the named algorithm's digest over the
file's current on-disk content" — the digest of the file contents, lowercase
hex encoded, with a missing file being an I/O error.  `ok false` is a digest
mismatch; an unknown algorithm is an error. -/
def verifychecksum (C : Crypto) (fs : FS) (c : Checksum) : Except Err Bool :=
  if c.algo = SHA256A then
    match recodehash c.hash 32 with
    | none => Except.error Err.invalidB64
    | some h =>
      match lookupFS fs c.file with
      | none => Except.error Err.ioError
      | some (_, content) => Except.ok (hexEncode (C.sha256 content) == h)
  else if c.algo = SHA512A then
    match recodehash c.hash 64 with
    | none => Except.error Err.invalidB64
    | some h =>
      match lookupFS fs c.file with
      | none => Except.error Err.ioError
      | some (_, content) => Except.ok (hexEncode (C.sha512 content) == h)
  else Except.error Err.unknownAlgo

/-- `bufio.Scanner` with `ScanLines`: split on newlines, no trailing empty
token, and one trailing carriage return stripped per line. -/
def splitNl : List Nat → List (List Nat)
  | [] => []
  | x :: xs =>
    if x = 10 then [] :: splitNl xs
    else
      match splitNl xs with
      | [] => [[x]]
      | a :: rest => (x :: a) :: rest

/-- Strip one trailing carriage return (byte 13), as `dropCR` does. -/
def dropCr (l : List Nat) : List Nat := if l.getLast? = some 13 then l.dropLast else l

/-- The lines yielded by the manifest scanner. -/
def scanLines (msg : List Nat) : List (List Nat) := (splitNl msg).map dropCr

/-- Membership-preserving insert (`checkFiles[c.file] = true` on a map). -/
def insertSet (s : List (List Nat)) (x : List Nat) : List (List Nat) :=
  if x ∈ s then s else s ++ [x]

/-- The argument list as a set in first-occurrence order (the `checkFiles`
map built from `args`). -/
def dedupArgs (args : List (List Nat)) : List (List Nat) := args.foldl insertSet []

/-- The per-line loop of `verifychecksums` over the already-scanned lines,
carrying the `checkFiles` set.  In filtered mode a successfully checked file
is removed; in unfiltered mode a failed file is inserted.  Any error from
parsing or checking aborts the whole loop immediately, as in the Go code. -/
def vLoop (C : Crypto) (fs : FS) : List (List Nat) → List (List Nat) → Bool →
    Except Err (List (List Nat))
  | [], checkFiles, _ => Except.ok checkFiles
  | line :: rest, checkFiles, filtered =>
    match parseChecksumLine line with
    | none => Except.error Err.parseFailed
    | some c =>
      if filtered then
        if c.file ∈ checkFiles then
          match verifychecksum C fs c with
          | Except.error e => Except.error e
          | Except.ok true => vLoop C fs rest (checkFiles.filter (fun n => n ≠ c.file)) filtered
          | Except.ok false => vLoop C fs rest checkFiles filtered
        else vLoop C fs rest checkFiles filtered
      else
        match verifychecksum C fs c with
        | Except.error e => Except.error e
        | Except.ok true => vLoop C fs rest checkFiles filtered
        | Except.ok false => vLoop C fs rest (insertSet checkFiles c.file) filtered

/-- `verifychecksums`: run the loop and report the remaining `checkFiles` as
the failure set; a non-empty failure set yields `flag.ErrHelp` (modelled as
`Err.errHelp`).  The second component is the list of names reported "FAIL". -/
def verifychecksums (C : Crypto) (fs : FS) (msg : List Nat) (args : List (List Nat)) :
    Except Err Unit × List (List Nat) :=
  match vLoop C fs (scanLines msg) (dedupArgs args) (!args.isEmpty) with
  | Except.error e => (Except.error e, [])
  | Except.ok fails =>
    (if fails = [] then Except.ok () else Except.error Err.errHelp, fails)

/-- `check` (the -C mode): embedded verification of the manifest, then the
per-file checksum verification. -/
def check (C : Crypto) (fs : FS) (pubkeyfile sigfile : List Nat) (args : List (List Nat))
    (quiet : Bool) : Except Err Unit × List (List Nat) :=
  match verifyembedded C fs pubkeyfile sigfile quiet with
  | (Except.error e, _) => (Except.error e, [])
  | (Except.ok msg, _) => verifychecksums C fs msg args

/-- The spec's notion of "contains a parent-directory traversal segment",
used to state claim C4 as written: some `/`-separated component of the path
equals "..".  (The Go code instead tests for the substring "/../".) -/
def splitOn47 : List Nat → List (List Nat)
  | [] => [[]]
  | x :: xs =>
    if x = 47 then [] :: splitOn47 xs
    else
      match splitOn47 xs with
      | [] => [[x]]
      | a :: rest => (x :: a) :: rest

/-- Modelled from the spec: "contains a parent-directory traversal segment". -/
def specTraversalSeg (p : List Nat) : Bool := (splitOn47 p).any (fun s => s == DOTDOT)

/-! ## Helper lemmas -/

theorem b64dec_b64chr : ∀ n < 64, b64dec (b64chr n) = some n := by decide

theorem b64chr_ne_61 : ∀ n < 64, b64chr n ≠ 61 := by decide

theorem b64chr_ne_10 : ∀ n < 64, b64chr n ≠ 10 := by decide

theorem b64_roundtrip : ∀ l : List Nat, (∀ x ∈ l, x < 256) → b64decode (b64encode l) = some l
  | [], _ => rfl
  | [a], h => by
    have ha : a < 256 := h a (by simp)
    have h1 : a / 4 < 64 := by omega
    have h2 : a % 4 * 16 < 64 := by omega
    simp only [b64encode, b64decode, b64dec_b64chr _ h1, b64dec_b64chr _ h2]
    simp
    omega
  | [a, b], h => by
    have ha : a < 256 := h a (by simp)
    have hb : b < 256 := h b (by simp)
    have h1 : a / 4 < 64 := by omega
    have h2 : a % 4 * 16 + b / 16 < 64 := by omega
    have h3 : b % 16 * 4 < 64 := by omega
    simp only [b64encode, b64decode, b64dec_b64chr _ h1, b64dec_b64chr _ h2,
      b64dec_b64chr _ h3]
    rw [if_neg (b64chr_ne_61 _ h3)]
    simp
    constructor
    · omega
    · omega
  | a :: b :: c :: d :: rest, h => by
    have ha : a < 256 := h a (by simp)
    have hb : b < 256 := h b (by simp)
    have hc : c < 256 := h c (by simp)
    have h1 : a / 4 < 64 := by omega
    have h2 : a % 4 * 16 + b / 16 < 64 := by omega
    have h3 : b % 16 * 4 + c / 64 < 64 := by omega
    have h4 : c % 64 < 64 := by omega
    have ih := b64_roundtrip (d :: rest) (fun x hx => h x (by simp [hx]))
    simp only [b64encode, b64decode, b64dec_b64chr _ h1, b64dec_b64chr _ h2,
      b64dec_b64chr _ h3, b64dec_b64chr _ h4]
    rw [if_neg (b64chr_ne_61 _ h3)]
    rw [if_neg (b64chr_ne_61 _ h4)]
    rw [ih]
    simp
    refine ⟨by omega, by omega, by omega⟩
  | [a, b, c], h => by
    have ha : a < 256 := h a (by simp)
    have hb : b < 256 := h b (by simp)
    have hc : c < 256 := h c (by simp)
    have h1 : a / 4 < 64 := by omega
    have h2 : a % 4 * 16 + b / 16 < 64 := by omega
    have h3 : b % 16 * 4 + c / 64 < 64 := by omega
    have h4 : c % 64 < 64 := by omega
    simp only [b64encode, b64decode, b64dec_b64chr _ h1, b64dec_b64chr _ h2,
      b64dec_b64chr _ h3, b64dec_b64chr _ h4]
    rw [if_neg (b64chr_ne_61 _ h3)]
    rw [if_neg (b64chr_ne_61 _ h4)]
    simp [b64decode]
    refine ⟨by omega, by omega, by omega⟩

theorem b64chr_any_ne_10 (n : Nat) : b64chr n ≠ 10 := by
  unfold b64chr
  split
  · omega
  · split
    · omega
    · split
      · omega
      · split <;> omega

theorem b64encode_ne_10 : ∀ (l : List Nat), ∀ x ∈ b64encode l, x ≠ 10
  | [], x, hx => by simp [b64encode] at hx
  | [a], x, hx => by
    simp only [b64encode, List.mem_cons, List.not_mem_nil, or_false] at hx
    rcases hx with h | h | h | h <;>
      first
      | exact h ▸ b64chr_any_ne_10 _
      | omega
  | [a, b], x, hx => by
    simp only [b64encode, List.mem_cons, List.not_mem_nil, or_false] at hx
    rcases hx with h | h | h | h <;>
      first
      | exact h ▸ b64chr_any_ne_10 _
      | omega
  | a :: b :: c :: rest, x, hx => by
    simp only [b64encode, List.mem_cons] at hx
    rcases hx with h | h | h | h | h
    · exact h ▸ b64chr_any_ne_10 _
    · exact h ▸ b64chr_any_ne_10 _
    · exact h ▸ b64chr_any_ne_10 _
    · exact h ▸ b64chr_any_ne_10 _
    · exact b64encode_ne_10 rest x h

theorem splitAfter1_append (a r : List Nat) (h : 10 ∉ a) :
    splitAfter1 (a ++ 10 :: r) = some (a ++ [10], r) := by
  induction a with
  | nil => simp [splitAfter1]
  | cons x t ih =>
    have hx : x ≠ 10 := fun hh => h (by simp [hh])
    have ht : 10 ∉ t := fun hh => h (by simp [hh])
    simp only [List.cons_append, splitAfter1, if_neg hx, List.append_eq, ih ht]

theorem isPrefixB_append (p r : List Nat) : isPrefixB p (p ++ r) = true := by
  induction p with
  | nil => rfl
  | cons x t ih => simp [isPrefixB, ih]

theorem dropLast_append_nl (a : List Nat) (x : Nat) : (a ++ [x]).dropLast = a := by
  simp

theorem take_app (a b : List Nat) (n : Nat) (h : a.length = n) : (a ++ b).take n = a := by
  subst h
  exact List.take_left a b

theorem drop_app (a b : List Nat) (n : Nat) (h : a.length = n) : (a ++ b).drop n = b := by
  subst h
  exact List.drop_left a b

theorem parse_envelope (comment data msg : List Nat) (h10 : 10 ∉ comment)
    (hlen : comment.length + 19 < 1024) (hb : ∀ x ∈ data, x < 256)
    (hpre : data.take 2 = PKALG) (hdl : 2 ≤ data.length) :
    parseb64file (b64FileContent comment data msg) = Except.ok (comment, data, msg) := by
  have hhdr10 : (10 : Nat) ∉ COMMENTHDR ++ comment := by
    intro hm
    rcases List.mem_append.mp hm with hm | hm
    · revert hm
      decide
    · exact h10 hm
  have hsplit1 : splitAfter1 (b64FileContent comment data msg) =
      some ((COMMENTHDR ++ comment) ++ [10], b64encode data ++ [10] ++ msg) := by
    have : b64FileContent comment data msg =
        (COMMENTHDR ++ comment) ++ 10 :: (b64encode data ++ [10] ++ msg) := by
      simp [b64FileContent]
    rw [this, splitAfter1_append _ _ hhdr10]
  have hsplit2 : splitAfter1 (b64encode data ++ [10] ++ msg) =
      some (b64encode data ++ [10], msg) := by
    have : b64encode data ++ [10] ++ msg = b64encode data ++ 10 :: msg := by simp
    rw [this, splitAfter1_append _ _ (fun hm => b64encode_ne_10 data 10 hm rfl)]
  have hpref : isPrefixB COMMENTHDR ((COMMENTHDR ++ comment) ++ [10]) = true := by
    have : (COMMENTHDR ++ comment) ++ [10] = COMMENTHDR ++ (comment ++ [10]) := by simp
    rw [this]
    exact isPrefixB_append _ _
  have hclen : ((COMMENTHDR ++ comment) ++ [10]).dropLast.length = 19 + comment.length := by
    rw [dropLast_append_nl]
    simp [COMMENTHDR]
    omega
  unfold parseb64file
  simp only [hsplit1]
  simp only [hpref]
  rw [if_neg (by simp : ¬ (true = false))]
  rw [if_neg (by rw [hclen]; omega)]
  simp only [hsplit2, dropLast_append_nl]
  simp only [b64_roundtrip data hb]
  rw [if_neg (by simp [hpre]; omega)]
  rw [drop_app COMMENTHDR comment 19 (by decide)]

theorem decodeEnckey_encode (e : Enckey) (h1 : e.pkalg.length = 2) (h2 : e.kdfalg.length = 2)
    (h3 : e.kdfrounds.length = 4) (h4 : e.salt.length = 16) (h5 : e.checksum.length = 8)
    (h6 : e.keynum.length = 8) (h7 : e.seckey.length = 64) :
    decodeEnckey (encodeEnckey e) = some e := by
  obtain ⟨p, k, r, s, c, n, sk⟩ := e
  have l1 : p.length = 2 := h1
  have l2 : k.length = 2 := h2
  have l3 : r.length = 4 := h3
  have l4 : s.length = 16 := h4
  have l5 : c.length = 8 := h5
  have l6 : n.length = 8 := h6
  have l7 : sk.length = 64 := h7
  have hb : encodeEnckey ⟨p, k, r, s, c, n, sk⟩ =
      p ++ (k ++ (r ++ (s ++ (c ++ (n ++ sk))))) := by
    simp [encodeEnckey]
  rw [hb]
  have hlen : 104 ≤ (p ++ (k ++ (r ++ (s ++ (c ++ (n ++ sk)))))).length := by
    simp only [List.length_append]
    omega
  have d1 : (p ++ (k ++ (r ++ (s ++ (c ++ (n ++ sk)))))).drop 2 =
      k ++ (r ++ (s ++ (c ++ (n ++ sk)))) := drop_app _ _ _ l1
  have d2 : (k ++ (r ++ (s ++ (c ++ (n ++ sk))))).drop 2 =
      r ++ (s ++ (c ++ (n ++ sk))) := drop_app _ _ _ l2
  have d3 : (r ++ (s ++ (c ++ (n ++ sk)))).drop 4 = s ++ (c ++ (n ++ sk)) := drop_app _ _ _ l3
  have d4 : (s ++ (c ++ (n ++ sk))).drop 16 = c ++ (n ++ sk) := drop_app _ _ _ l4
  have d5 : (c ++ (n ++ sk)).drop 8 = n ++ sk := drop_app _ _ _ l5
  have d6 : (n ++ sk).drop 8 = sk := drop_app _ _ _ l6
  have t1 : (p ++ (k ++ (r ++ (s ++ (c ++ (n ++ sk)))))).take 2 = p := take_app _ _ _ l1
  have t2 : (k ++ (r ++ (s ++ (c ++ (n ++ sk))))).take 2 = k := take_app _ _ _ l2
  have t3 : (r ++ (s ++ (c ++ (n ++ sk)))).take 4 = r := take_app _ _ _ l3
  have t4 : (s ++ (c ++ (n ++ sk))).take 16 = s := take_app _ _ _ l4
  have t5 : (c ++ (n ++ sk)).take 8 = c := take_app _ _ _ l5
  have t6 : (n ++ sk).take 8 = n := take_app _ _ _ l6
  have t7 : sk.take 64 = sk := by
    rw [← l7]
    exact List.take_length sk
  unfold decodeEnckey
  rw [if_pos hlen, d1, d2, d3, d4, d5, d6, t1, t2, t3, t4, t5, t6, t7]

theorem decodePubkey_encode (p : Pubkey) (h1 : p.pkalg.length = 2) (h2 : p.keynum.length = 8)
    (h3 : p.pubdata.length = 32) : decodePubkey (encodePubkey p) = some p := by
  obtain ⟨a, n, d⟩ := p
  have l1 : a.length = 2 := h1
  have l2 : n.length = 8 := h2
  have l3 : d.length = 32 := h3
  have hb : encodePubkey ⟨a, n, d⟩ = a ++ (n ++ d) := by
    simp [encodePubkey]
  rw [hb]
  have hlen : 42 ≤ (a ++ (n ++ d)).length := by
    simp only [List.length_append]
    omega
  have d1 : (a ++ (n ++ d)).drop 2 = n ++ d := drop_app _ _ _ l1
  have d2 : (n ++ d).drop 8 = d := drop_app _ _ _ l2
  have t1 : (a ++ (n ++ d)).take 2 = a := take_app _ _ _ l1
  have t2 : (n ++ d).take 8 = n := take_app _ _ _ l2
  have t3 : d.take 32 = d := by
    rw [← l3]
    exact List.take_length d
  unfold decodePubkey
  rw [if_pos hlen, d1, d2, t1, t2, t3]

theorem decodeSig_encode (s : Sig) (h1 : s.pkalg.length = 2) (h2 : s.keynum.length = 8)
    (h3 : s.sigdata.length = 64) : decodeSig (encodeSig s) = some s := by
  obtain ⟨a, n, d⟩ := s
  have l1 : a.length = 2 := h1
  have l2 : n.length = 8 := h2
  have l3 : d.length = 64 := h3
  have hb : encodeSig ⟨a, n, d⟩ = a ++ (n ++ d) := by
    simp [encodeSig]
  rw [hb]
  have hlen : 74 ≤ (a ++ (n ++ d)).length := by
    simp only [List.length_append]
    omega
  have d1 : (a ++ (n ++ d)).drop 2 = n ++ d := drop_app _ _ _ l1
  have d2 : (n ++ d).drop 8 = d := drop_app _ _ _ l2
  have t1 : (a ++ (n ++ d)).take 2 = a := take_app _ _ _ l1
  have t2 : (n ++ d).take 8 = n := take_app _ _ _ l2
  have t3 : d.take 64 = d := by
    rw [← l3]
    exact List.take_length d
  unfold decodeSig
  rw [if_pos hlen, d1, d2, t1, t2, t3]

theorem xorBytes_length (a b : List Nat) : (xorBytes a b).length = min a.length b.length := by
  simp [xorBytes]

theorem xorBytes_xorBytes_cancel : ∀ (a b : List Nat), a.length = b.length →
    xorBytes (xorBytes a b) b = a
  | [], [], _ => rfl
  | [], _ :: _, h => by simp at h
  | _ :: _, [], h => by simp at h
  | x :: xs, y :: ys, h => by
    simp only [xorBytes, List.zipWith_cons_cons]
    rw [show (x ^^^ y) ^^^ y = x from Nat.xor_cancel_right y x]
    have := xorBytes_xorBytes_cancel xs ys (by simpa using h)
    simpa [xorBytes] using this

theorem xorBytes_zero : ∀ (a : List Nat), xorBytes a (List.replicate a.length 0) = a
  | [] => rfl
  | x :: xs => by
    simp only [List.length_cons, List.replicate, xorBytes, List.zipWith_cons_cons, Nat.xor_zero]
    have := xorBytes_zero xs
    simpa [xorBytes] using this

theorem xorBytes_lt : ∀ (a b : List Nat), (∀ x ∈ a, x < 256) → (∀ x ∈ b, x < 256) →
    ∀ x ∈ xorBytes a b, x < 256
  | [], _, _, _ => by simp [xorBytes]
  | _ :: _, [], _, _ => by simp [xorBytes]
  | x :: xs, y :: ys, ha, hb => by
    intro z hz
    simp only [xorBytes, List.zipWith_cons_cons, List.mem_cons] at hz
    rcases hz with hz | hz
    · subst hz
      have h1 : x < 2 ^ 8 := by
        have := ha x (by simp)
        omega
      have h2 : y < 2 ^ 8 := by
        have := hb y (by simp)
        omega
      have := Nat.xor_lt_two_pow h1 h2
      omega
    · exact xorBytes_lt xs ys (fun u hu => ha u (by simp [hu])) (fun u hu => hb u (by simp [hu]))
        z hz

theorem be32_length (n : Nat) : (be32 n).length = 4 := rfl

theorem be32_lt (n : Nat) : ∀ x ∈ be32 n, x < 256 := by
  intro x hx
  simp only [be32, List.mem_cons, List.not_mem_nil, or_false] at hx
  rcases hx with h | h | h | h <;> subst h <;> omega

theorem be32toNat_be32 (n : Nat) (h : n < 4294967296) : be32toNat (be32 n) = n := by
  simp only [be32, be32toNat]
  omega

theorem lookupFS_setFile_self_of_none (fs : FS) (f : List Nat) (m : Nat) (c : List Nat)
    (h : lookupFS fs f = none) : lookupFS (setFile fs f m c) f = some (m, c) := by
  induction fs with
  | nil => simp [setFile, lookupFS]
  | cons hd tl ih =>
    obtain ⟨n, m0, c0⟩ := hd
    by_cases hn : n = f
    · simp [lookupFS, hn] at h
    · simp only [lookupFS, if_neg hn] at h
      simp [setFile, lookupFS, if_neg hn, ih h]

theorem lookupFS_setFile_ne (fs : FS) (f g : List Nat) (m : Nat) (c : List Nat) (h : g ≠ f) :
    lookupFS (setFile fs f m c) g = lookupFS fs g := by
  induction fs with
  | nil =>
    simp only [setFile, lookupFS]
    rw [if_neg (fun hh => h hh.symm)]
  | cons hd tl ih =>
    obtain ⟨n, m0, c0⟩ := hd
    by_cases hn : n = f
    · have e1 : setFile ((n, m0, c0) :: tl) f m c = (n, m0, c) :: tl := by
        simp [setFile, hn]
      rw [e1]
      simp only [lookupFS]
      have hng : ¬ n = g := fun hh => h (hh ▸ hn)
      rw [if_neg hng, if_neg hng]
    · have e1 : setFile ((n, m0, c0) :: tl) f m c = (n, m0, c0) :: setFile tl f m c := by
        simp [setFile, hn]
      rw [e1]
      simp only [lookupFS]
      by_cases hg : n = g
      · rw [if_pos hg, if_pos hg]
      · rw [if_neg hg, if_neg hg]
        exact ih

theorem setFile_setFile (fs : FS) (f : List Nat) (m : Nat) (c1 c2 : List Nat) :
    setFile (setFile fs f m c1) f m c2 = setFile fs f m c2 := by
  induction fs with
  | nil => simp [setFile]
  | cons hd tl ih =>
    obtain ⟨n, m0, c0⟩ := hd
    by_cases hn : n = f
    · simp [setFile, hn]
    · simp [setFile, hn, ih]

theorem writeb64file_ok_excl (fs : FS) (fname comment data msg : List Nat) (mode : Nat)
    (hnew : lookupFS fs fname = none)
    (hlen : comment.length ≤ 1003) :
    writeb64file fs fname comment data msg true mode =
      (Except.ok (), setFile fs fname mode (b64FileContent comment data msg)) := by
  unfold writeb64file
  rw [if_neg (by simp [hnew])]
  rw [if_neg (by simp [COMMENTHDR]; omega)]
  rw [setFile_setFile]

theorem writeb64file_ok_trunc (fs : FS) (fname comment data msg : List Nat) (mode : Nat)
    (hlen : comment.length ≤ 1003) :
    writeb64file fs fname comment data msg false mode =
      (Except.ok (), setFile fs fname mode (b64FileContent comment data msg)) := by
  unfold writeb64file
  rw [if_neg (by simp)]
  rw [if_neg (by simp [COMMENTHDR]; omega)]
  rw [setFile_setFile]

theorem kdf_noconfirm_line (C : Crypto) (salt : List Nat) (rounds keylen : Nat) (hr : rounds ≠ 0)
    (p : List Nat) (c : Nat) (r : List (List Nat)) :
    kdf C ((p ++ [c, 10]) :: r) salt rounds false keylen =
      (Except.ok (C.bcryptPbkdf p salt rounds keylen), r, [Ev.prompt]) := by
  have hl : (p ++ [c, 10]).length = p.length + 2 := by simp
  simp only [kdf, if_neg hr]
  rw [if_neg (by rw [hl]; omega)]
  simp only [Bool.false_eq_true, if_false]
  rw [hl]
  have h2 : p.length + 2 - 2 = p.length := by omega
  rw [h2, take_app p [c, 10] p.length rfl]

/-! ## Claim theorems -/

/-- Claim C7: masking is a self-inverse byte-wise XOR — XOR-masking a key
twice with a mask of the key's length yields the original key; with round
count 0 the derived mask is all zeros and masking with the all-zero mask is
the identity on the key bytes. -/
theorem c7_mask_self_inverse (key mask : List Nat) (h : mask.length = key.length) :
    xorBytes (xorBytes key mask) mask = key
    ∧ (∀ (C : Crypto) (stdin : List (List Nat)) (salt : List Nat) (keylen : Nat),
        kdf C stdin salt 0 false keylen = (Except.ok (List.replicate keylen 0), stdin, []))
    ∧ xorBytes key (List.replicate key.length 0) = key :=
  ⟨xorBytes_xorBytes_cancel key mask h.symm, fun _ _ _ _ => rfl, xorBytes_zero key⟩

theorem c7_witness :
    xorBytes (xorBytes [1, 2, 3] [4, 5, 6]) [4, 5, 6] = [1, 2, 3]
    ∧ (∀ (C : Crypto) (stdin : List (List Nat)) (salt : List Nat) (keylen : Nat),
        kdf C stdin salt 0 false keylen = (Except.ok (List.replicate keylen 0), stdin, []))
    ∧ xorBytes [1, 2, 3] (List.replicate (List.length [1, 2, 3]) 0) = [1, 2, 3] :=
  c7_mask_self_inverse [1, 2, 3] [4, 5, 6] (by decide)

/-- Claim C10: the passphrase line read in `kdf` is truncated by its final
two bytes (`pass[0 : len(pass)-2]`), so the last entered character is
dropped: entries differing only in their final character derive identical
masks, a one-character entry is stretched as the empty string, and a bare
newline is rejected. -/
theorem c10_kdf_truncates_two (C : Crypto) (salt : List Nat) (rounds keylen : Nat)
    (hr : rounds ≠ 0) :
    (∀ (p : List Nat) (c1 c2 : Nat) (r1 r2 : List (List Nat)),
      (kdf C ((p ++ [c1, 10]) :: r1) salt rounds false keylen).1 =
        (kdf C ((p ++ [c2, 10]) :: r2) salt rounds false keylen).1)
    ∧ (∀ (c : Nat) (r : List (List Nat)),
        kdf C ([c, 10] :: r) salt rounds false keylen =
          (Except.ok (C.bcryptPbkdf [] salt rounds keylen), r, [Ev.prompt]))
    ∧ (∀ r : List (List Nat),
        (kdf C ([10] :: r) salt rounds false keylen).1 = Except.error Err.emptyPassword) := by
  refine ⟨?_, ?_, ?_⟩
  · intro p c1 c2 r1 r2
    rw [kdf_noconfirm_line C salt rounds keylen hr p c1 r1,
      kdf_noconfirm_line C salt rounds keylen hr p c2 r2]
  · intro c r
    have := kdf_noconfirm_line C salt rounds keylen hr [] c r
    simpa using this
  · intro r
    simp only [kdf, if_neg hr]
    rw [if_pos (by simp)]

theorem c10_witness :
    (kdf toyCrypto [[97, 98, 10]] [] 1 false 4).1 = (kdf toyCrypto [[97, 99, 10]] [] 1 false 4).1
    ∧ kdf toyCrypto [[97, 10]] [] 1 false 4 =
        (Except.ok (toyCrypto.bcryptPbkdf [] [] 1 4), [], [Ev.prompt])
    ∧ (kdf toyCrypto [[10]] [] 1 false 4).1 = Except.error Err.emptyPassword := by
  have h := c10_kdf_truncates_two toyCrypto [] 1 4 (by decide)
  exact ⟨h.1 [97] 98 99 [] [], h.2.1 97 [], h.2.2 []⟩

/-- Claim C3: `verifymsg` fails with the wrong-key error exactly when the key
identifiers differ; with equal identifiers it fails with the
verification-failed error exactly when the cryptographic check fails;
otherwise it succeeds and prints the fixed confirmation line unless quiet. -/
theorem c3_verifymsg_cases (C : Crypto) (pk : Pubkey) (msg : List Nat) (s : Sig) (quiet : Bool) :
    ((verifymsg C pk msg s quiet).1 = Except.error Err.wrongKey ↔ pk.keynum ≠ s.keynum)
    ∧ ((verifymsg C pk msg s quiet).1 = Except.error Err.verifyFailed ↔
        (pk.keynum = s.keynum ∧ C.edVerify pk.pubdata msg s.sigdata = false))
    ∧ (verifymsg C pk msg s quiet = (Except.ok (), if quiet then [] else [OKMSG]) ↔
        (pk.keynum = s.keynum ∧ C.edVerify pk.pubdata msg s.sigdata = true)) := by
  unfold verifymsg
  by_cases hk : pk.keynum = s.keynum
  · rw [if_neg (by simp [hk])]
    by_cases hv : C.edVerify pk.pubdata msg s.sigdata = false
    · simp [hk, hv]
    · rw [Bool.not_eq_false] at hv
      simp [hk, hv]
  · rw [if_pos hk]
    simp [hk]

/-- Claim C4 as stated is false on the code: the recovered path
"/etc/signify/.." contains a parent-directory traversal segment (its last
`/`-separated component is ".."), yet `readpubkey` does not fail with the
untrusted-path error — it goes on to read the file (here: an I/O error on the
empty filesystem). -/
theorem c4_counterexample :
    containsSub VERIFYWITH (VERIFYWITH ++ SAFEPATH ++ DOTDOT) = true
    ∧ afterFirst VERIFYWITH (VERIFYWITH ++ SAFEPATH ++ DOTDOT) = SAFEPATH ++ DOTDOT
    ∧ isPrefixB SAFEPATH (SAFEPATH ++ DOTDOT) = true
    ∧ specTraversalSeg (SAFEPATH ++ DOTDOT) = true
    ∧ readpubkey [] [] (VERIFYWITH ++ SAFEPATH ++ DOTDOT) = Except.error Err.ioError
    ∧ Err.ioError ≠ Err.untrustedPath := by decide

/-- Claim C4, amended: with no public-key path and a "verify with " marker in
the signature comment, the text after the marker is the public-key path, and
for every filesystem the operation fails with the untrusted-path error when
that path does not start with "/etc/signify/" or contains the substring
"/../" (rather than "contains a parent-directory traversal segment"). -/
theorem c4_untrusted_path (fs : FS) (sigcomment : List Nat)
    (hm : containsSub VERIFYWITH sigcomment = true)
    (hbad : isPrefixB SAFEPATH (afterFirst VERIFYWITH sigcomment) = false
      ∨ containsSub SLASHDOTSLASH (afterFirst VERIFYWITH sigcomment) = true) :
    readpubkey fs [] sigcomment = Except.error Err.untrustedPath := by
  have hcond : (!isPrefixB SAFEPATH (afterFirst VERIFYWITH sigcomment)
      || containsSub SLASHDOTSLASH (afterFirst VERIFYWITH sigcomment)) = true := by
    rcases hbad with hb | hb
    · simp [hb]
    · simp [hb]
  unfold readpubkey
  rw [if_pos rfl, if_pos hm, if_pos hcond]

theorem c4_witness :
    readpubkey [] [] (VERIFYWITH ++ [97]) = Except.error Err.untrustedPath :=
  c4_untrusted_path [] (VERIFYWITH ++ [97]) (by decide) (Or.inl (by decide))

theorem kdf_rounds_zero (C : Crypto) (stdin : List (List Nat)) (salt : List Nat) (confirm : Bool)
    (keylen : Nat) :
    kdf C stdin salt 0 confirm keylen = (Except.ok (List.replicate keylen 0), stdin, []) := rfl

theorem kdf_no_signed (C : Crypto) (stdin : List (List Nat)) (salt : List Nat) (rounds : Nat)
    (confirm : Bool) (keylen : Nat) :
    Ev.signed ∉ (kdf C stdin salt rounds confirm keylen).2.2 := by
  unfold kdf
  repeat' split
  all_goals simp

theorem writeb64file_exists (fs : FS) (fname comment data msg : List Nat) (mode : Nat)
    (hd : fname ≠ DASH) (hex : (lookupFS fs fname).isSome = true) :
    writeb64file fs fname comment data msg true mode = (Except.error Err.fileExists, fs) := by
  unfold writeb64file
  rw [if_pos ⟨rfl, hd, hex⟩]

/-- Claim C2: when the first 8 bytes of the digest of the unmasked key differ
from the stored checksum, `sign` fails with the wrong-passphrase error, the
filesystem is unchanged (no signature file is created or modified), and no
signature has been computed; and whenever the envelope's stored round count is
0, no passphrase prompt occurs during `sign`. -/
theorem c2_wrong_passphrase (C : Crypto) (fs : FS) (stdin : List (List Nat))
    (secf msgf sigf : List Nat) (emb : Bool) (comment buf : List Nat) (e : Enckey)
    (mask : List Nat) (stR : List (List Nat)) (evK : List Ev)
    (hread : readb64file fs secf = Except.ok (comment, buf))
    (hdec : decodeEnckey buf = some e)
    (halg : e.kdfalg = KDFALG)
    (hkdf : kdf C stdin e.salt (be32toNat e.kdfrounds) false 64 = (Except.ok mask, stR, evK))
    (hbad : e.checksum ≠ (C.sha512 (xorBytes e.seckey mask)).take 8) :
    (sign C fs stdin secf msgf sigf emb = (Except.error Err.wrongPassphrase, fs, evK)
      ∧ Ev.signed ∉ evK
      ∧ (be32toNat e.kdfrounds = 0 → Ev.prompt ∉ evK))
    ∧ ∀ (fs2 : FS) (stdin2 : List (List Nat)) (secf2 msgf2 sigf2 : List Nat) (emb2 : Bool)
        (comment2 buf2 : List Nat) (e2 : Enckey),
        readb64file fs2 secf2 = Except.ok (comment2, buf2) →
        decodeEnckey buf2 = some e2 →
        e2.kdfalg = KDFALG →
        be32toNat e2.kdfrounds = 0 →
        Ev.prompt ∉ (sign C fs2 stdin2 secf2 msgf2 sigf2 emb2).2.2 := by
  constructor
  · refine ⟨?_, ?_, ?_⟩
    · simp only [sign, hread, hdec]
      rw [if_neg (by simp [halg])]
      simp only [hkdf]
      rw [if_pos hbad]
    · have hev : evK = (kdf C stdin e.salt (be32toNat e.kdfrounds) false 64).2.2 := by
        rw [hkdf]
      rw [hev]
      exact kdf_no_signed C stdin e.salt (be32toNat e.kdfrounds) false 64
    · intro h0
      rw [h0, kdf_rounds_zero] at hkdf
      injection hkdf with h1 h2
      injection h2 with h3 h4
      rw [← h4]
      simp
  · intro fs2 stdin2 secf2 msgf2 sigf2 emb2 comment2 buf2 e2 hread2 hdec2 halg2 hr0
    simp only [sign, hread2, hdec2]
    rw [if_neg (by simp [halg2])]
    rw [hr0]
    simp only [kdf_rounds_zero]
    repeat' split
    all_goals simp

set_option maxRecDepth 8000 in
theorem c2_witness :
    sign toyCrypto
        [([115],
          384,
          b64FileContent ([99] ++ SECSUF)
            (encodeEnckey
              { pkalg := PKALG, kdfalg := KDFALG, kdfrounds := be32 0,
                salt := List.replicate 16 2, checksum := List.replicate 8 1,
                keynum := List.replicate 8 4, seckey := List.replicate 64 3 }) [])]
        [] [115] [109] [120] false =
      (Except.error Err.wrongPassphrase,
        [([115],
          384,
          b64FileContent ([99] ++ SECSUF)
            (encodeEnckey
              { pkalg := PKALG, kdfalg := KDFALG, kdfrounds := be32 0,
                salt := List.replicate 16 2, checksum := List.replicate 8 1,
                keynum := List.replicate 8 4, seckey := List.replicate 64 3 }) [])],
        [])
    ∧ Ev.signed ∉ ([] : List Ev) ∧ (be32toNat (be32 0) = 0 → Ev.prompt ∉ ([] : List Ev)) :=
  (c2_wrong_passphrase toyCrypto
      [([115],
        384,
        b64FileContent ([99] ++ SECSUF)
          (encodeEnckey
            { pkalg := PKALG, kdfalg := KDFALG, kdfrounds := be32 0,
              salt := List.replicate 16 2, checksum := List.replicate 8 1,
              keynum := List.replicate 8 4, seckey := List.replicate 64 3 }) [])]
      [] [115] [109] [120] false ([99] ++ SECSUF)
      (encodeEnckey
        { pkalg := PKALG, kdfalg := KDFALG, kdfrounds := be32 0,
          salt := List.replicate 16 2, checksum := List.replicate 8 1,
          keynum := List.replicate 8 4, seckey := List.replicate 64 3 })
      { pkalg := PKALG, kdfalg := KDFALG, kdfrounds := be32 0,
        salt := List.replicate 16 2, checksum := List.replicate 8 1,
        keynum := List.replicate 8 4, seckey := List.replicate 64 3 }
      (List.replicate 64 0) [] [] (by decide) (by decide) (by decide) (by decide)
      (by decide)).1

theorem generate_ok (C : Crypto) (fs : FS) (stdin : List (List Nat))
    (pub sk keynum salt pubf secf : List Nat) (rounds : Nat) (comment : List Nat)
    (mask : List Nat) (stG : List (List Nat)) (evG : List Ev)
    (hkdf : kdf C stdin salt rounds true 64 = (Except.ok mask, stG, evG))
    (hcl : comment.length ≤ 980)
    (hse : lookupFS fs secf = none) (hpe : lookupFS fs pubf = none) (hne : pubf ≠ secf) :
    generate C fs stdin pub sk keynum salt pubf secf rounds comment =
      (Except.ok (),
        setFile (setFile fs secf 384
            (b64FileContent (comment ++ SECSUF)
              (encodeEnckey (genEnckey C sk keynum salt rounds mask)) []))
          pubf 438
          (b64FileContent (comment ++ PUBSUF) (encodePubkey (genPubkey pub keynum)) []),
        evG) := by
  have w1 := writeb64file_ok_excl fs secf (comment ++ SECSUF)
    (encodeEnckey (genEnckey C sk keynum salt rounds mask)) [] 384 hse (by simp [SECSUF]; omega)
  have w2 := writeb64file_ok_excl
    (setFile fs secf 384 (b64FileContent (comment ++ SECSUF)
      (encodeEnckey (genEnckey C sk keynum salt rounds mask)) []))
    pubf (comment ++ PUBSUF) (encodePubkey (genPubkey pub keynum)) [] 438
    (by rw [lookupFS_setFile_ne _ _ _ _ _ hne]; exact hpe) (by simp [PUBSUF]; omega)
  simp only [generate, hkdf]
  rw [if_neg (by simp [SECSUF]; omega)]
  simp only [w1]
  rw [if_neg (by simp [PUBSUF]; omega)]
  simp only [w2]

/-- Claim C9: `generate` writes the secret-key envelope first with
exclusive-create semantics and owner-only permissions (mode 0600 = 384), then
the public-key envelope with exclusive-create semantics (mode 0666 = 438); it
fails when either target exists, and a failure of the public-key write leaves
the already-written secret-key file in place. -/
theorem c9_generate_write_order (C : Crypto) (fs : FS) (stdin : List (List Nat))
    (pub sk keynum salt pubf secf : List Nat) (rounds : Nat) (comment : List Nat)
    (mask : List Nat) (stG : List (List Nat)) (evG : List Ev)
    (hkdf : kdf C stdin salt rounds true 64 = (Except.ok mask, stG, evG))
    (hcl : comment.length ≤ 980)
    (hsd : secf ≠ DASH) (hpd : pubf ≠ DASH) :
    ((lookupFS fs secf).isSome = true →
      generate C fs stdin pub sk keynum salt pubf secf rounds comment =
        (Except.error Err.fileExists, fs, evG))
    ∧ (lookupFS fs secf = none → (pubf = secf ∨ (lookupFS fs pubf).isSome = true) →
      generate C fs stdin pub sk keynum salt pubf secf rounds comment =
        (Except.error Err.fileExists,
          setFile fs secf 384 (b64FileContent (comment ++ SECSUF)
            (encodeEnckey (genEnckey C sk keynum salt rounds mask)) []),
          evG)
      ∧ lookupFS (setFile fs secf 384 (b64FileContent (comment ++ SECSUF)
            (encodeEnckey (genEnckey C sk keynum salt rounds mask)) [])) secf =
          some (384, b64FileContent (comment ++ SECSUF)
            (encodeEnckey (genEnckey C sk keynum salt rounds mask)) []))
    ∧ (lookupFS fs secf = none → lookupFS fs pubf = none → pubf ≠ secf →
      generate C fs stdin pub sk keynum salt pubf secf rounds comment =
        (Except.ok (),
          setFile (setFile fs secf 384 (b64FileContent (comment ++ SECSUF)
              (encodeEnckey (genEnckey C sk keynum salt rounds mask)) []))
            pubf 438
            (b64FileContent (comment ++ PUBSUF) (encodePubkey (genPubkey pub keynum)) []),
          evG)) := by
  refine ⟨?_, ?_, ?_⟩
  · intro hex
    simp only [generate, hkdf]
    rw [if_neg (by simp [SECSUF]; omega)]
    rw [writeb64file_exists fs secf _ _ _ 384 hsd hex]
  · intro hse hex
    have hex2 : (lookupFS (setFile fs secf 384 (b64FileContent (comment ++ SECSUF)
        (encodeEnckey (genEnckey C sk keynum salt rounds mask)) [])) pubf).isSome = true := by
      rcases hex with hp | hp
      · rw [hp, lookupFS_setFile_self_of_none fs secf 384 _ hse]
        rfl
      · have hne2 : pubf ≠ secf := by
          intro hq
          rw [hq] at hp
          rw [hse] at hp
          simp at hp
        rw [lookupFS_setFile_ne fs secf pubf 384 _ hne2]
        exact hp
    have w1 := writeb64file_ok_excl fs secf (comment ++ SECSUF)
      (encodeEnckey (genEnckey C sk keynum salt rounds mask)) [] 384 hse (by simp [SECSUF]; omega)
    have w2 := writeb64file_exists (setFile fs secf 384 (b64FileContent (comment ++ SECSUF)
        (encodeEnckey (genEnckey C sk keynum salt rounds mask)) [])) pubf (comment ++ PUBSUF)
      (encodePubkey (genPubkey pub keynum)) [] 438 hpd hex2
    simp only [generate, hkdf]
    rw [if_neg (by simp [SECSUF]; omega)]
    simp only [w1]
    rw [if_neg (by simp [PUBSUF]; omega)]
    simp only [w2]
    exact ⟨trivial, lookupFS_setFile_self_of_none fs secf 384 _ hse⟩
  · intro hse hpe hne
    exact generate_ok C fs stdin pub sk keynum salt pubf secf rounds comment mask stG evG
      hkdf hcl hse hpe hne

theorem c9_witness :
    generate toyCrypto [([115], 0, [])] [] (List.replicate 32 7) (List.replicate 64 3)
        (List.replicate 8 1) (List.replicate 16 2) [112] [115] 0 [99] =
      (Except.error Err.fileExists, [([115], 0, [])], []) :=
  (c9_generate_write_order toyCrypto [([115], 0, [])] [] (List.replicate 32 7)
      (List.replicate 64 3) (List.replicate 8 1) (List.replicate 16 2) [112] [115] 0 [99]
      (List.replicate 64 0) [] [] rfl (by decide) (by decide) (by decide)).1 (by decide)

/-- Claim C6 as stated is false on the code: the bound differs by one between
write and parse, because `writeb64file` counts the header's trailing newline
(`len(header) >= 1024` with `header = COMMENTHDR + comment + "\n"`) while
`parseb64file` trims the newline before the check.  A comment of exactly 1004
characters is rejected by `writeb64file` with the comment-too-long error, yet
an envelope carrying that very comment parses successfully. -/
theorem c6_counterexample :
    (writeb64file [] [120] (List.replicate 1004 97)
        (encodeSig { pkalg := PKALG, keynum := List.replicate 8 0, sigdata := List.replicate 64 0 })
        [] false 438).1 = Except.error Err.commentTooLong
    ∧ parseb64file (b64FileContent (List.replicate 1004 97)
        (encodeSig { pkalg := PKALG, keynum := List.replicate 8 0, sigdata := List.replicate 64 0 })
        []) =
      Except.ok (List.replicate 1004 97,
        encodeSig { pkalg := PKALG, keynum := List.replicate 8 0, sigdata := List.replicate 64 0 },
        []) := by
  constructor
  · unfold writeb64file
    rw [if_neg (by simp)]
    have h19 : COMMENTHDR.length = 19 := rfl
    rw [if_pos (by
      simp only [List.length_append, List.length_replicate, List.length_cons,
        List.length_nil, h19]
      omega)]
  · exact parse_envelope (List.replicate 1004 97)
      (encodeSig { pkalg := PKALG, keynum := List.replicate 8 0, sigdata := List.replicate 64 0 })
      [] (fun h => by have := List.eq_of_mem_replicate h; omega)
      (by rw [List.length_replicate]; omega) (by decide) (by decide) (by decide)

/-- Claim C6, amended: the comment-length bound is off by one between the two
sides.  `writeb64file` rejects with the comment-too-long error exactly when
19 + comment + 1 (the header including its newline) reaches 1024, while
`parseb64file` rejects the corresponding envelope with that error exactly when
19 + comment (the header without the newline) reaches 1024; the two checks
therefore agree on every comment length except exactly 1004. -/
theorem c6_comment_bounds (fs : FS) (fname comment data msg : List Nat) (mode : Nat)
    (h10 : 10 ∉ comment) :
    ((writeb64file fs fname comment data msg false mode).1 = Except.error Err.commentTooLong
      ↔ 1024 ≤ 20 + comment.length)
    ∧ (parseb64file (b64FileContent comment data msg) = Except.error Err.commentTooLong
      ↔ 1024 ≤ 19 + comment.length) := by
  have hhdr10 : (10 : Nat) ∉ COMMENTHDR ++ comment := by
    intro hm
    rcases List.mem_append.mp hm with hm | hm
    · revert hm
      decide
    · exact h10 hm
  have hsplit1 : splitAfter1 (b64FileContent comment data msg) =
      some ((COMMENTHDR ++ comment) ++ [10], b64encode data ++ [10] ++ msg) := by
    have he : b64FileContent comment data msg =
        (COMMENTHDR ++ comment) ++ 10 :: (b64encode data ++ [10] ++ msg) := by
      simp [b64FileContent]
    rw [he, splitAfter1_append _ _ hhdr10]
  have hsplit2 : splitAfter1 (b64encode data ++ [10] ++ msg) =
      some (b64encode data ++ [10], msg) := by
    have he : b64encode data ++ [10] ++ msg = b64encode data ++ 10 :: msg := by simp
    rw [he, splitAfter1_append _ _ (fun hm => b64encode_ne_10 data 10 hm rfl)]
  have hpref : isPrefixB COMMENTHDR ((COMMENTHDR ++ comment) ++ [10]) = true := by
    have he : (COMMENTHDR ++ comment) ++ [10] = COMMENTHDR ++ (comment ++ [10]) := by simp
    rw [he]
    exact isPrefixB_append _ _
  have hclen : ((COMMENTHDR ++ comment) ++ [10]).dropLast.length = 19 + comment.length := by
    rw [dropLast_append_nl]
    simp [COMMENTHDR]
    omega
  constructor
  · unfold writeb64file
    rw [if_neg (by simp)]
    by_cases hc : 1024 ≤ (COMMENTHDR ++ comment ++ [10]).length
    · rw [if_pos hc]
      simp only [true_iff]
      simp [COMMENTHDR] at hc
      omega
    · rw [if_neg hc]
      simp [COMMENTHDR] at hc
      simp
      omega
  · by_cases hc : 1024 ≤ 19 + comment.length
    · unfold parseb64file
      simp only [hsplit1, hpref]
      rw [if_neg (by simp : ¬ (true = false))]
      rw [if_pos (by rw [hclen]; omega)]
      simp [hc]
    · unfold parseb64file
      simp only [hsplit1, hpref]
      rw [if_neg (by simp : ¬ (true = false))]
      rw [if_neg (by rw [hclen]; omega)]
      simp only [hsplit2, dropLast_append_nl]
      rcases hD : b64decode (b64encode data) with _ | buf
      · simp [hD, hc]
      · simp only [hD]
        split
        · simp [hc]
        · simp [hc]

theorem c6_witness :
    ((writeb64file [] [120] [97] PKALG [] false 438).1 = Except.error Err.commentTooLong
      ↔ 1024 ≤ 20 + List.length [97])
    ∧ (parseb64file (b64FileContent [97] PKALG []) = Except.error Err.commentTooLong
      ↔ 1024 ≤ 19 + List.length [97]) :=
  c6_comment_bounds [] [120] [97] PKALG [] 438 (by decide)

theorem insertSet_mem (s : List (List Nat)) (x f : List Nat) :
    f ∈ insertSet s x ↔ f ∈ s ∨ f = x := by
  unfold insertSet
  split
  · rename_i hx
    constructor
    · exact Or.inl
    · rintro (h | h)
      · exact h
      · rw [h]
        exact hx
  · simp [List.mem_append]

theorem vLoop_unfiltered_mem (C : Crypto) (fs : FS) :
    ∀ (lines acc fails : List (List Nat)),
      vLoop C fs lines acc false = Except.ok fails →
      ∀ f, (f ∈ fails ↔ f ∈ acc ∨ ∃ line ∈ lines, ∃ c, parseChecksumLine line = some c ∧
        c.file = f ∧ verifychecksum C fs c = Except.ok false)
  | [], acc, fails, h, f => by
    simp only [vLoop] at h
    injection h with h2
    subst h2
    simp
  | line :: rest, acc, fails, h, f => by
    simp only [vLoop] at h
    rcases hp : parseChecksumLine line with _ | c
    · rw [hp] at h
      cases h
    · simp only [hp, Bool.false_eq_true, if_false] at h
      rcases hv : verifychecksum C fs c with e | b
      · simp only [hv] at h
        cases h
      · simp only [hv] at h
        cases b
        · have ih := vLoop_unfiltered_mem C fs rest (insertSet acc c.file) fails h f
          rw [ih, insertSet_mem]
          constructor
          · rintro ((hf | hf) | ⟨l, hl, c2, hc2, hcf, hcv⟩)
            · exact Or.inl hf
            · exact Or.inr ⟨line, List.mem_cons_self line rest, c, hp, hf.symm, hv⟩
            · exact Or.inr ⟨l, List.mem_cons_of_mem _ hl, c2, hc2, hcf, hcv⟩
          · rintro (hf | ⟨l, hl, c2, hc2, hcf, hcv⟩)
            · exact Or.inl (Or.inl hf)
            · rcases List.mem_cons.mp hl with hl | hl
              · subst hl
                rw [hp] at hc2
                injection hc2 with hc2
                subst hc2
                exact Or.inl (Or.inr hcf.symm)
              · exact Or.inr ⟨l, hl, c2, hc2, hcf, hcv⟩
        · have ih := vLoop_unfiltered_mem C fs rest acc fails h f
          rw [ih]
          constructor
          · rintro (hf | ⟨l, hl, c2, hc2, hcf, hcv⟩)
            · exact Or.inl hf
            · exact Or.inr ⟨l, List.mem_cons_of_mem _ hl, c2, hc2, hcf, hcv⟩
          · rintro (hf | ⟨l, hl, c2, hc2, hcf, hcv⟩)
            · exact Or.inl hf
            · rcases List.mem_cons.mp hl with hl | hl
              · subst hl
                rw [hp] at hc2
                injection hc2 with hc2
                subst hc2
                rw [hv] at hcv
                simp at hcv
              · exact Or.inr ⟨l, hl, c2, hc2, hcf, hcv⟩

theorem vLoop_filtered_mem (C : Crypto) (fs : FS) :
    ∀ (lines acc fails : List (List Nat)),
      vLoop C fs lines acc true = Except.ok fails →
      ∀ f, (f ∈ fails ↔ f ∈ acc ∧ ∀ line ∈ lines, ∀ c, parseChecksumLine line = some c →
        c.file = f → verifychecksum C fs c ≠ Except.ok true)
  | [], acc, fails, h, f => by
    simp only [vLoop] at h
    injection h with h2
    subst h2
    simp
  | line :: rest, acc, fails, h, f => by
    simp only [vLoop] at h
    rcases hp : parseChecksumLine line with _ | c
    · rw [hp] at h
      cases h
    · simp only [hp, if_true] at h
      by_cases hmem : c.file ∈ acc
      · rw [if_pos hmem] at h
        rcases hv : verifychecksum C fs c with e | b
        · simp only [hv] at h
          cases h
        · simp only [hv] at h
          cases b
          · have ih := vLoop_filtered_mem C fs rest acc fails h f
            rw [ih]
            constructor
            · rintro ⟨hf, hall⟩
              refine ⟨hf, ?_⟩
              intro l hl c2 hc2 hcf
              rcases List.mem_cons.mp hl with hl | hl
              · subst hl
                rw [hp] at hc2
                injection hc2 with hc2
                subst hc2
                rw [hv]
                simp
              · exact hall l hl c2 hc2 hcf
            · rintro ⟨hf, hall⟩
              exact ⟨hf, fun l hl c2 hc2 hcf => hall l (List.mem_cons_of_mem _ hl) c2 hc2 hcf⟩
          · have ih := vLoop_filtered_mem C fs rest
              (acc.filter (fun n => n ≠ c.file)) fails h f
            rw [ih]
            constructor
            · rintro ⟨hf, hall⟩
              have hf2 := List.mem_filter.mp hf
              have hne : f ≠ c.file := by
                have := hf2.2
                simpa using this
              refine ⟨hf2.1, ?_⟩
              intro l hl c2 hc2 hcf
              rcases List.mem_cons.mp hl with hl | hl
              · subst hl
                rw [hp] at hc2
                injection hc2 with hc2
                subst hc2
                exact absurd hcf.symm hne
              · exact hall l hl c2 hc2 hcf
            · rintro ⟨hf, hall⟩
              have hne : f ≠ c.file := by
                intro hq
                exact hall line (List.mem_cons_self line rest) c hp hq.symm hv
              refine ⟨List.mem_filter.mpr ⟨hf, by simpa using hne⟩, ?_⟩
              exact fun l hl c2 hc2 hcf => hall l (List.mem_cons_of_mem _ hl) c2 hc2 hcf
      · rw [if_neg hmem] at h
        have ih := vLoop_filtered_mem C fs rest acc fails h f
        rw [ih]
        constructor
        · rintro ⟨hf, hall⟩
          refine ⟨hf, ?_⟩
          intro l hl c2 hc2 hcf
          rcases List.mem_cons.mp hl with hl | hl
          · subst hl
            rw [hp] at hc2
            injection hc2 with hc2
            subst hc2
            exact (hmem (by rw [hcf]; exact hf)).elim
          · exact hall l hl c2 hc2 hcf
        · rintro ⟨hf, hall⟩
          exact ⟨hf, fun l hl c2 hc2 hcf => hall l (List.mem_cons_of_mem _ hl) c2 hc2 hcf⟩

theorem verifychecksum_congr (C : Crypto) (fs fs2 : FS) (c : Checksum)
    (h : lookupFS fs c.file = lookupFS fs2 c.file) :
    verifychecksum C fs c = verifychecksum C fs2 c := by
  unfold verifychecksum
  rw [h]

theorem vLoop_frame (C : Crypto) (fs fs2 : FS) :
    ∀ (lines acc : List (List Nat)),
      (∀ n ∈ acc, lookupFS fs n = lookupFS fs2 n) →
      vLoop C fs lines acc true = vLoop C fs2 lines acc true
  | [], _, _ => rfl
  | line :: rest, acc, hagree => by
    simp only [vLoop]
    rcases hp : parseChecksumLine line with _ | c
    · rfl
    · simp only [hp, if_true]
      by_cases hmem : c.file ∈ acc
      · rw [if_pos hmem, if_pos hmem]
        rw [verifychecksum_congr C fs fs2 c (hagree _ hmem)]
        rcases hv : verifychecksum C fs2 c with e | b
        · rfl
        · cases b
          · exact vLoop_frame C fs fs2 rest acc hagree
          · exact vLoop_frame C fs fs2 rest (acc.filter (fun n => n ≠ c.file))
              (fun n hn => hagree n (List.mem_filter.mp hn).1)
      · rw [if_neg hmem, if_neg hmem]
        exact vLoop_frame C fs fs2 rest acc hagree

/-- Claim C5 as stated is false on the code: an entry that fails by an I/O
error (its file is absent) is not collected into the failure set — the whole
run aborts immediately with that error, so no failure set is reported and the
aggregate-failure signal (`flag.ErrHelp`) is not produced.  Manifest
"SHA256 (a.txt) = 000…0" with no file "a.txt" on disk. -/
theorem c5_counterexample :
    verifychecksums toyCrypto []
        ([83, 72, 65, 50, 53, 54, 32, 40, 97, 46, 116, 120, 116, 41, 32, 61, 32] ++
          List.replicate 64 48) [] =
      (Except.error Err.ioError, [])
    ∧ Err.ioError ≠ Err.errHelp
    ∧ [97, 46, 116, 120, 116] ∉
        (verifychecksums toyCrypto []
          ([83, 72, 65, 50, 53, 54, 32, 40, 97, 46, 116, 120, 116, 41, 32, 61, 32] ++
            List.replicate 64 48) []).2 := by decide

/-- Claim C5, amended: with no filter, digest mismatches (and only they) are
collected into the failure set and reported at the end, and the command
signals the aggregate failure (`flag.ErrHelp`) exactly when that set is
non-empty — provided no entry aborts the loop with an error (I/O error,
unknown algorithm, undecodable digest); such an error aborts the whole run
immediately with that error instead. -/
theorem c5_unfiltered_aggregate (C : Crypto) (fs : FS) (msg : List Nat)
    (fails : List (List Nat))
    (hrun : vLoop C fs (scanLines msg) [] false = Except.ok fails) :
    verifychecksums C fs msg [] =
      ((if fails = [] then Except.ok () else Except.error Err.errHelp), fails)
    ∧ (∀ f, f ∈ fails ↔ ∃ line ∈ scanLines msg, ∃ c, parseChecksumLine line = some c ∧
        c.file = f ∧ verifychecksum C fs c = Except.ok false) := by
  constructor
  · unfold verifychecksums
    simp only [dedupArgs, List.foldl_nil, List.isEmpty_nil, Bool.not_true]
    simp only [hrun]
  · intro f
    have := vLoop_unfiltered_mem C fs (scanLines msg) [] fails hrun f
    simpa using this

theorem c5_witness :
    verifychecksums toyCrypto [] [] [] =
      ((if ([] : List (List Nat)) = [] then Except.ok () else Except.error Err.errHelp),
        ([] : List (List Nat)))
    ∧ (∀ f, f ∈ ([] : List (List Nat)) ↔ ∃ line ∈ scanLines [], ∃ c,
        parseChecksumLine line = some c ∧ c.file = f ∧
          verifychecksum toyCrypto [] c = Except.ok false) :=
  c5_unfiltered_aggregate toyCrypto [] [] [] rfl

/-- Claim C8 as stated is false on the code: with filter [a.txt, b.txt] and a
manifest whose only line names a.txt (whose file is absent, an I/O error),
the run aborts with that error, so the absent filtered name b.txt is never
reported in a failure set and no aggregate failure is signalled. -/
theorem c8_counterexample :
    verifychecksums toyCrypto []
        ([83, 72, 65, 50, 53, 54, 32, 40, 97, 46, 116, 120, 116, 41, 32, 61, 32] ++
          List.replicate 64 48)
        [[97, 46, 116, 120, 116], [98, 46, 116, 120, 116]] =
      (Except.error Err.ioError, [])
    ∧ [98, 46, 116, 120, 116] ∉
        (verifychecksums toyCrypto []
          ([83, 72, 65, 50, 53, 54, 32, 40, 97, 46, 116, 120, 116, 41, 32, 61, 32] ++
            List.replicate 64 48)
          [[97, 46, 116, 120, 116], [98, 46, 116, 120, 116]]).2
    ∧ Err.ioError ≠ Err.errHelp := by decide

/-- Claim C8, amended: with an explicit filter and a run in which no checked
entry errors, only the filtered names are consulted (the outcome is invariant
under changes to the filesystem outside the filtered names), and the final
failure set is exactly the filtered names for which no manifest line's check
reported success — absent names included; the aggregate failure is signalled
exactly when that set is non-empty.  A checked entry that errors aborts the
run with that error instead. -/
theorem c8_filtered_selection (C : Crypto) (fs : FS) (msg : List Nat)
    (args fails : List (List Nat)) (hargs : args ≠ [])
    (hrun : vLoop C fs (scanLines msg) (dedupArgs args) true = Except.ok fails) :
    verifychecksums C fs msg args =
      ((if fails = [] then Except.ok () else Except.error Err.errHelp), fails)
    ∧ (∀ f, f ∈ fails ↔ f ∈ dedupArgs args ∧ ∀ line ∈ scanLines msg, ∀ c,
        parseChecksumLine line = some c → c.file = f →
          verifychecksum C fs c ≠ Except.ok true)
    ∧ (∀ fs2 : FS, (∀ n ∈ dedupArgs args, lookupFS fs n = lookupFS fs2 n) →
        vLoop C fs2 (scanLines msg) (dedupArgs args) true = Except.ok fails) := by
  refine ⟨?_, ?_, ?_⟩
  · unfold verifychecksums
    have hne : (!args.isEmpty) = true := by
      cases args
      · exact absurd rfl hargs
      · rfl
    rw [hne]
    simp only [hrun]
  · intro f
    exact vLoop_filtered_mem C fs (scanLines msg) (dedupArgs args) fails hrun f
  · intro fs2 hagree
    rw [← vLoop_frame C fs fs2 (scanLines msg) (dedupArgs args) hagree]
    exact hrun

theorem c8_witness :
    verifychecksums toyCrypto [] [] [[98]] =
      ((if ([[98]] : List (List Nat)) = [] then Except.ok () else Except.error Err.errHelp),
        [[98]])
    ∧ (∀ f, f ∈ [[98]] ↔ f ∈ dedupArgs [[98]] ∧ ∀ line ∈ scanLines [], ∀ c,
        parseChecksumLine line = some c → c.file = f →
          verifychecksum toyCrypto [] c ≠ Except.ok true)
    ∧ (∀ fs2 : FS, (∀ n ∈ dedupArgs [[98]], lookupFS [] n = lookupFS fs2 n) →
        vLoop toyCrypto fs2 (scanLines []) (dedupArgs [[98]]) true = Except.ok [[98]]) :=
  c8_filtered_selection toyCrypto [] [] [[98]] [[98]] (by decide) rfl

theorem PKALG_lt : ∀ x ∈ PKALG, x < 256 := by decide

theorem KDFALG_lt : ∀ x ∈ KDFALG, x < 256 := by decide

theorem readb64file_content (fs : FS) (f : List Nat) (m : Nat) (comment data msg : List Nat)
    (hf : lookupFS fs f = some (m, b64FileContent comment data msg))
    (h10 : 10 ∉ comment) (hlen : comment.length + 19 < 1024) (hb : ∀ x ∈ data, x < 256)
    (hpre : data.take 2 = PKALG) (hdl : 2 ≤ data.length) :
    readb64file fs f = Except.ok (comment, data) := by
  unfold readb64file
  simp only [hf]
  simp only [parse_envelope comment data msg h10 hlen hb hpre hdl]

theorem take2_PKALG (rest : List Nat) : (PKALG ++ rest).take 2 = PKALG :=
  take_app _ _ _ (by decide)

theorem encodeEnckey_genEnckey (C : Crypto) (sk keynum salt : List Nat) (rounds : Nat)
    (mask : List Nat) :
    encodeEnckey (genEnckey C sk keynum salt rounds mask) =
      PKALG ++ (KDFALG ++ (be32 rounds ++ (salt ++ ((C.sha512 sk).take 8 ++
        (keynum ++ xorBytes sk mask))))) := by
  simp [encodeEnckey, genEnckey]

theorem encodePubkey_genPubkey (pub keynum : List Nat) :
    encodePubkey (genPubkey pub keynum) = PKALG ++ (keynum ++ pub) := by
  simp [encodePubkey, genPubkey]

theorem encodeSig_mk (keynum sigdata : List Nat) :
    encodeSig { pkalg := PKALG, keynum := keynum, sigdata := sigdata } =
      PKALG ++ (keynum ++ sigdata) := by
  simp [encodeSig]

theorem genEnckey_bytes (C : Crypto) (hC : CryptoGood C) (sk keynum salt : List Nat)
    (rounds : Nat) (mask : List Nat) (hsb : ∀ x ∈ sk, x < 256) (hkb : ∀ x ∈ keynum, x < 256)
    (hab : ∀ x ∈ salt, x < 256) (hmb : ∀ x ∈ mask, x < 256) :
    ∀ x ∈ encodeEnckey (genEnckey C sk keynum salt rounds mask), x < 256 := by
  intro x hx
  rw [encodeEnckey_genEnckey] at hx
  simp only [List.mem_append] at hx
  rcases hx with hx | hx | hx | hx | hx | hx | hx
  · exact PKALG_lt x hx
  · exact KDFALG_lt x hx
  · exact be32_lt rounds x hx
  · exact hab x hx
  · exact hC.sha512_lt sk x (List.take_subset _ _ hx)
  · exact hkb x hx
  · exact xorBytes_lt sk mask hsb hmb x hx

theorem genPubkey_bytes (pub keynum : List Nat) (hpb : ∀ x ∈ pub, x < 256)
    (hkb : ∀ x ∈ keynum, x < 256) :
    ∀ x ∈ encodePubkey (genPubkey pub keynum), x < 256 := by
  intro x hx
  rw [encodePubkey_genPubkey] at hx
  simp only [List.mem_append] at hx
  rcases hx with hx | hx | hx
  · exact PKALG_lt x hx
  · exact hkb x hx
  · exact hpb x hx

theorem sigRecord_bytes (C : Crypto) (hC : CryptoGood C) (keynum sk msg : List Nat)
    (hkb : ∀ x ∈ keynum, x < 256) :
    ∀ x ∈ encodeSig { pkalg := PKALG, keynum := keynum, sigdata := C.edSign sk msg },
      x < 256 := by
  intro x hx
  rw [encodeSig_mk] at hx
  simp only [List.mem_append] at hx
  rcases hx with hx | hx | hx
  · exact PKALG_lt x hx
  · exact hkb x hx
  · exact hC.edSign_lt sk msg x hx

theorem encodeEnckey_genEnckey_length (C : Crypto) (hC : CryptoGood C)
    (sk keynum salt : List Nat) (rounds : Nat) (mask : List Nat) (hsl : sk.length = 64)
    (hkl : keynum.length = 8) (hal : salt.length = 16) (hml : mask.length = 64) :
    (encodeEnckey (genEnckey C sk keynum salt rounds mask)).length = 104 := by
  rw [encodeEnckey_genEnckey]
  simp [be32, PKALG, KDFALG, List.length_take, hC.sha512_len sk, xorBytes_length, hsl, hml,
    hal, hkl]

theorem decode_genEnckey (C : Crypto) (hC : CryptoGood C) (sk keynum salt : List Nat)
    (rounds : Nat) (mask : List Nat) (hsl : sk.length = 64) (hkl : keynum.length = 8)
    (hal : salt.length = 16) (hml : mask.length = 64) :
    decodeEnckey (encodeEnckey (genEnckey C sk keynum salt rounds mask)) =
      some (genEnckey C sk keynum salt rounds mask) := by
  refine decodeEnckey_encode _ rfl rfl (be32_length rounds) hal ?_ hkl ?_
  · show ((C.sha512 sk).take 8).length = 8
    simp [List.length_take, hC.sha512_len sk]
  · show (xorBytes sk mask).length = 64
    rw [xorBytes_length, hsl, hml]
    simp

theorem trimSuffixB_subset (suf l : List Nat) : ∀ x ∈ trimSuffixB suf l, x ∈ l := by
  unfold trimSuffixB
  split
  · exact fun x hx => List.take_subset _ _ hx
  · exact fun x hx => hx

theorem trimSuffixB_length_le (suf l : List Nat) : (trimSuffixB suf l).length ≤ l.length := by
  unfold trimSuffixB
  split
  · rw [List.length_take]
    omega
  · exact Nat.le_refl _

theorem sigCommentOf_no10 (secf comment0 : List Nat) (h1 : 10 ∉ secf) (h2 : 10 ∉ comment0) :
    10 ∉ sigCommentOf secf comment0 := by
  unfold sigCommentOf
  split
  · intro hm
    rcases List.mem_append.mp hm with hm | hm
    · rcases List.mem_append.mp hm with hm | hm
      · revert hm
        decide
      · exact h1 (trimSuffixB_subset DOTSEC secf 10 hm)
    · revert hm
      decide
  · intro hm
    rcases List.mem_append.mp hm with hm | hm
    · revert hm
      decide
    · exact h2 hm

theorem sigCommentOf_length_le (secf comment0 : List Nat) (hs : secf.length ≤ 900)
    (hc : comment0.length ≤ 980) : (sigCommentOf secf comment0).length ≤ 1003 := by
  unfold sigCommentOf
  split
  · have ht := trimSuffixB_length_le DOTSEC secf
    simp only [List.length_append, VERIFYWITH, DOTPUB]
    simp
    omega
  · simp only [List.length_append, SIGFROM]
    simp
    omega

theorem sign_ok (C : Crypto) (hC : CryptoGood C) (fs : FS) (stdin : List (List Nat))
    (secf msgf sigf : List Nat) (emb : Bool) (sk keynum salt : List Nat) (rounds : Nat)
    (comment0 mask : List Nat) (mm : Nat) (msg : List Nat) (stS : List (List Nat))
    (evS : List Ev) (sm : Nat)
    (hsec : lookupFS fs secf = some (sm, b64FileContent comment0
        (encodeEnckey (genEnckey C sk keynum salt rounds mask)) []))
    (h10 : 10 ∉ comment0) (hc0 : comment0.length ≤ 980)
    (hr : rounds < 4294967296)
    (hkS : kdf C stdin salt rounds false 64 = (Except.ok mask, stS, evS))
    (hsl : sk.length = 64) (hsb : ∀ x ∈ sk, x < 256)
    (hkl : keynum.length = 8) (hkb : ∀ x ∈ keynum, x < 256)
    (hal : salt.length = 16) (hab : ∀ x ∈ salt, x < 256)
    (hml : mask.length = 64) (hmb : ∀ x ∈ mask, x < 256)
    (hmsg : lookupFS fs msgf = some (mm, msg))
    (hscl : (sigCommentOf secf comment0).length ≤ 1003) :
    sign C fs stdin secf msgf sigf emb =
      (Except.ok (),
        setFile fs sigf 438 (b64FileContent (sigCommentOf secf comment0)
          (encodeSig { pkalg := PKALG, keynum := keynum, sigdata := C.edSign sk msg })
          (if emb then msg else [])),
        evS ++ [Ev.signed]) := by
  have hread := readb64file_content fs secf sm comment0
    (encodeEnckey (genEnckey C sk keynum salt rounds mask)) [] hsec h10 (by omega)
    (genEnckey_bytes C hC sk keynum salt rounds mask hsb hkb hab hmb)
    (by rw [encodeEnckey_genEnckey]; exact take2_PKALG _)
    (by rw [encodeEnckey_genEnckey_length C hC sk keynum salt rounds mask hsl hkl hal hml]; omega)
  have hdecE := decode_genEnckey C hC sk keynum salt rounds mask hsl hkl hal hml
  have hs1 : (genEnckey C sk keynum salt rounds mask).salt = salt := rfl
  have hs2 : (genEnckey C sk keynum salt rounds mask).kdfrounds = be32 rounds := rfl
  have hs3 : (genEnckey C sk keynum salt rounds mask).checksum = (C.sha512 sk).take 8 := rfl
  have hs4 : (genEnckey C sk keynum salt rounds mask).seckey = xorBytes sk mask := rfl
  have hs5 : (genEnckey C sk keynum salt rounds mask).keynum = keynum := rfl
  have hw := writeb64file_ok_trunc fs sigf (sigCommentOf secf comment0)
    (encodeSig { pkalg := PKALG, keynum := keynum, sigdata := C.edSign sk msg })
    (if emb then msg else []) 438 hscl
  simp only [sign, hread, hdecE]
  rw [if_neg (by simp [genEnckey, KDFALG])]
  rw [hs1, hs2, be32toNat_be32 rounds hr]
  simp only [hkS]
  rw [hs3, hs4, xorBytes_xorBytes_cancel sk mask (by rw [hsl, hml])]
  rw [if_neg (by simp)]
  simp only [hmsg, hs5]
  rw [if_neg (by omega)]
  simp only [hw]

theorem lookupFS_setFile_self (fs : FS) (f : List Nat) (m : Nat) (c : List Nat) :
    ∃ m2, lookupFS (setFile fs f m c) f = some (m2, c) := by
  induction fs with
  | nil => exact ⟨m, by simp [setFile, lookupFS]⟩
  | cons hd tl ih =>
    obtain ⟨n, m0, c0⟩ := hd
    by_cases hn : n = f
    · refine ⟨m0, ?_⟩
      have e1 : setFile ((n, m0, c0) :: tl) f m c = (n, m0, c) :: tl := by
        simp [setFile, hn]
      rw [e1]
      simp [lookupFS, hn]
    · obtain ⟨m2, hm2⟩ := ih
      refine ⟨m2, ?_⟩
      have e1 : setFile ((n, m0, c0) :: tl) f m c = (n, m0, c0) :: setFile tl f m c := by
        simp [setFile, hn]
      rw [e1]
      simp [lookupFS, hn, hm2]

theorem encodeSig_length (C : Crypto) (hC : CryptoGood C) (keynum sk msg : List Nat)
    (hkl : keynum.length = 8) :
    (encodeSig { pkalg := PKALG, keynum := keynum, sigdata := C.edSign sk msg }).length = 74 := by
  rw [encodeSig_mk]
  simp [PKALG, hkl, hC.edSign_len sk msg]

theorem encodePubkey_length (pub keynum : List Nat) (hkl : keynum.length = 8)
    (hpl : pub.length = 32) : (encodePubkey (genPubkey pub keynum)).length = 42 := by
  rw [encodePubkey_genPubkey]
  simp [PKALG, hkl, hpl]

theorem verifymsg_ok (C : Crypto) (pub keynum sk msg : List Nat) (quiet : Bool)
    (hkp : C.edVerify pub msg (C.edSign sk msg) = true) :
    verifymsg C (genPubkey pub keynum) msg
        { pkalg := PKALG, keynum := keynum, sigdata := C.edSign sk msg } quiet =
      (Except.ok (), if quiet then [] else [OKMSG]) := by
  unfold verifymsg
  rw [if_neg (by simp [genPubkey])]
  rw [if_neg (by simp [genPubkey, hkp])]

theorem readpubkey_explicit (fs : FS) (pubf sigcomment : List Nat) (mp : Nat)
    (pcomment pdata : List Nat)
    (hpubne : pubf ≠ [])
    (hpub : lookupFS fs pubf = some (mp, b64FileContent pcomment pdata []))
    (hpc10 : 10 ∉ pcomment) (hpcl : pcomment.length ≤ 1004)
    (hpb : ∀ x ∈ pdata, x < 256) (hppre : pdata.take 2 = PKALG) (hpdl : 2 ≤ pdata.length) :
    readpubkey fs pubf sigcomment = Except.ok pdata := by
  have hread := readb64file_content fs pubf mp pcomment pdata [] hpub hpc10 (by omega)
    hpb hppre hpdl
  unfold readpubkey
  rw [if_neg hpubne]
  simp only [hread]

theorem verifysimple_ok (C : Crypto) (hC : CryptoGood C) (fs : FS)
    (pubf msgf sigf : List Nat) (quiet : Bool)
    (pub keynum sk msg sigcomment pcomment trail : List Nat) (mm ms mp : Nat)
    (hmsg : lookupFS fs msgf = some (mm, msg))
    (hsig : lookupFS fs sigf = some (ms, b64FileContent sigcomment
        (encodeSig { pkalg := PKALG, keynum := keynum, sigdata := C.edSign sk msg }) trail))
    (hpub : lookupFS fs pubf = some (mp, b64FileContent pcomment
        (encodePubkey (genPubkey pub keynum)) []))
    (hpubne : pubf ≠ [])
    (hsc10 : 10 ∉ sigcomment) (hscl : sigcomment.length ≤ 1004)
    (hpc10 : 10 ∉ pcomment) (hpcl : pcomment.length ≤ 1004)
    (hkl : keynum.length = 8) (hkb : ∀ x ∈ keynum, x < 256)
    (hpl : pub.length = 32) (hpb : ∀ x ∈ pub, x < 256)
    (hkp : C.edVerify pub msg (C.edSign sk msg) = true) :
    verifysimple C fs pubf msgf sigf quiet = (Except.ok (), if quiet then [] else [OKMSG]) := by
  have hreadsig := readb64file_content fs sigf ms sigcomment
    (encodeSig { pkalg := PKALG, keynum := keynum, sigdata := C.edSign sk msg }) trail hsig
    hsc10 (by omega) (sigRecord_bytes C hC keynum sk msg hkb)
    (by rw [encodeSig_mk]; exact take2_PKALG _)
    (by rw [encodeSig_length C hC keynum sk msg hkl]; omega)
  have hdecS := decodeSig_encode
    { pkalg := PKALG, keynum := keynum, sigdata := C.edSign sk msg } rfl hkl
    (hC.edSign_len sk msg)
  have hrp := readpubkey_explicit fs pubf sigcomment mp pcomment
    (encodePubkey (genPubkey pub keynum)) hpubne hpub hpc10 hpcl
    (genPubkey_bytes pub keynum hpb hkb)
    (by rw [encodePubkey_genPubkey]; exact take2_PKALG _)
    (by rw [encodePubkey_length pub keynum hkl hpl]; omega)
  have hdecP := decodePubkey_encode (genPubkey pub keynum) rfl hkl hpl
  have hvm := verifymsg_ok C pub keynum sk msg quiet hkp
  unfold verifysimple
  simp only [hmsg, hreadsig, hdecS, hrp, hdecP, hvm]

theorem verifyembedded_ok (C : Crypto) (hC : CryptoGood C) (fs : FS)
    (pubf sigf : List Nat) (quiet : Bool)
    (pub keynum sk msg sigcomment pcomment : List Nat) (ms mp : Nat)
    (hsig : lookupFS fs sigf = some (ms, b64FileContent sigcomment
        (encodeSig { pkalg := PKALG, keynum := keynum, sigdata := C.edSign sk msg }) msg))
    (hpub : lookupFS fs pubf = some (mp, b64FileContent pcomment
        (encodePubkey (genPubkey pub keynum)) []))
    (hpubne : pubf ≠ [])
    (hsc10 : 10 ∉ sigcomment) (hscl : sigcomment.length ≤ 1004)
    (hpc10 : 10 ∉ pcomment) (hpcl : pcomment.length ≤ 1004)
    (hkl : keynum.length = 8) (hkb : ∀ x ∈ keynum, x < 256)
    (hpl : pub.length = 32) (hpb : ∀ x ∈ pub, x < 256)
    (hkp : C.edVerify pub msg (C.edSign sk msg) = true) :
    verifyembedded C fs pubf sigf quiet = (Except.ok msg, if quiet then [] else [OKMSG]) := by
  have hparse := parse_envelope sigcomment
    (encodeSig { pkalg := PKALG, keynum := keynum, sigdata := C.edSign sk msg }) msg
    hsc10 (by omega) (sigRecord_bytes C hC keynum sk msg hkb)
    (by rw [encodeSig_mk]; exact take2_PKALG _)
    (by rw [encodeSig_length C hC keynum sk msg hkl]; omega)
  have hdecS := decodeSig_encode
    { pkalg := PKALG, keynum := keynum, sigdata := C.edSign sk msg } rfl hkl
    (hC.edSign_len sk msg)
  have hrp := readpubkey_explicit fs pubf sigcomment mp pcomment
    (encodePubkey (genPubkey pub keynum)) hpubne hpub hpc10 hpcl
    (genPubkey_bytes pub keynum hpb hkb)
    (by rw [encodePubkey_genPubkey]; exact take2_PKALG _)
    (by rw [encodePubkey_length pub keynum hkl hpl]; omega)
  have hdecP := decodePubkey_encode (genPubkey pub keynum) rfl hkl hpl
  have hvm := verifymsg_ok C pub keynum sk msg quiet hkp
  unfold verifyembedded
  simp only [hsig, hparse, hdecS, hrp, hdecP, hvm]

/-- Claim C1: round trip.  For a fresh key pair (with the ed25519 key-pair
property) and any message, `generate` succeeds, `sign` with the matching
passphrase-derived mask (or rounds = 0, where stdin is untouched) succeeds,
`verifysimple` (detached verification) on the resulting files succeeds, and
when signing with embedding enabled `verifyembedded` succeeds and returns
message bytes identical to the original message. -/
theorem c1_roundtrip (C : Crypto) (hC : CryptoGood C) (pub sk keynum salt : List Nat)
    (hkp : ∀ m, C.edVerify pub m (C.edSign sk m) = true)
    (hpl : pub.length = 32) (hpb : ∀ x ∈ pub, x < 256)
    (hsl : sk.length = 64) (hsb : ∀ x ∈ sk, x < 256)
    (hkl : keynum.length = 8) (hkb : ∀ x ∈ keynum, x < 256)
    (hal : salt.length = 16) (hab : ∀ x ∈ salt, x < 256)
    (rounds : Nat) (hr : rounds < 4294967296)
    (stdinG stdinS : List (List Nat)) (mask : List Nat) (stG stS : List (List Nat))
    (evG evS : List Ev)
    (hkG : kdf C stdinG salt rounds true 64 = (Except.ok mask, stG, evG))
    (hkS : kdf C stdinS salt rounds false 64 = (Except.ok mask, stS, evS))
    (hml : mask.length = 64) (hmb : ∀ x ∈ mask, x < 256)
    (comment : List Nat) (hc10 : 10 ∉ comment) (hcl : comment.length ≤ 900)
    (fs0 : FS) (secf pubf msgf sigf : List Nat) (msg : List Nat) (mmode : Nat)
    (hs10 : 10 ∉ secf) (hsfl : secf.length ≤ 900)
    (hse : lookupFS fs0 secf = none) (hpe : lookupFS fs0 pubf = none)
    (hmsg : lookupFS fs0 msgf = some (mmode, msg))
    (hne1 : pubf ≠ secf) (hne2 : msgf ≠ secf) (hne3 : msgf ≠ pubf)
    (hne5 : sigf ≠ pubf) (hne6 : msgf ≠ sigf) (hpubne : pubf ≠ [])
    (emb quiet : Bool) :
    (generate C fs0 stdinG pub sk keynum salt pubf secf rounds comment).1 = Except.ok ()
    ∧ (sign C (generate C fs0 stdinG pub sk keynum salt pubf secf rounds comment).2.1 stdinS
        secf msgf sigf emb).1 = Except.ok ()
    ∧ (verifysimple C
        (sign C (generate C fs0 stdinG pub sk keynum salt pubf secf rounds comment).2.1 stdinS
          secf msgf sigf emb).2.1 pubf msgf sigf quiet).1 = Except.ok ()
    ∧ (emb = true →
        (verifyembedded C
          (sign C (generate C fs0 stdinG pub sk keynum salt pubf secf rounds comment).2.1 stdinS
            secf msgf sigf emb).2.1 pubf sigf quiet).1 = Except.ok msg) := by
  have h010 : 10 ∉ comment ++ SECSUF := by
    intro hm
    rcases List.mem_append.mp hm with hm | hm
    · exact hc10 hm
    · revert hm
      decide
  have h0len : (comment ++ SECSUF).length ≤ 980 := by
    simp [SECSUF]
    omega
  have hp10 : 10 ∉ comment ++ PUBSUF := by
    intro hm
    rcases List.mem_append.mp hm with hm | hm
    · exact hc10 hm
    · revert hm
      decide
  have hplen : (comment ++ PUBSUF).length ≤ 1004 := by
    simp [PUBSUF]
    omega
  have hgen := generate_ok C fs0 stdinG pub sk keynum salt pubf secf rounds comment mask stG evG
    hkG (by omega) hse hpe hne1
  have hsec1 : lookupFS
      (setFile (setFile fs0 secf 384 (b64FileContent (comment ++ SECSUF)
          (encodeEnckey (genEnckey C sk keynum salt rounds mask)) []))
        pubf 438 (b64FileContent (comment ++ PUBSUF) (encodePubkey (genPubkey pub keynum)) []))
      secf = some (384, b64FileContent (comment ++ SECSUF)
        (encodeEnckey (genEnckey C sk keynum salt rounds mask)) []) := by
    rw [lookupFS_setFile_ne _ _ _ _ _ (fun hq => hne1 (Eq.symm hq))]
    exact lookupFS_setFile_self_of_none fs0 secf 384 _ hse
  have hmsg1 : lookupFS
      (setFile (setFile fs0 secf 384 (b64FileContent (comment ++ SECSUF)
          (encodeEnckey (genEnckey C sk keynum salt rounds mask)) []))
        pubf 438 (b64FileContent (comment ++ PUBSUF) (encodePubkey (genPubkey pub keynum)) []))
      msgf = some (mmode, msg) := by
    rw [lookupFS_setFile_ne _ _ _ _ _ hne3, lookupFS_setFile_ne _ _ _ _ _ hne2]
    exact hmsg
  have hscl : (sigCommentOf secf (comment ++ SECSUF)).length ≤ 1003 :=
    sigCommentOf_length_le secf (comment ++ SECSUF) hsfl h0len
  have hsign := sign_ok C hC
    (setFile (setFile fs0 secf 384 (b64FileContent (comment ++ SECSUF)
        (encodeEnckey (genEnckey C sk keynum salt rounds mask)) []))
      pubf 438 (b64FileContent (comment ++ PUBSUF) (encodePubkey (genPubkey pub keynum)) []))
    stdinS secf msgf sigf emb sk keynum salt rounds (comment ++ SECSUF) mask mmode msg stS evS
    384 hsec1 h010 h0len hr hkS hsl hsb hkl hkb hal hab hml hmb hmsg1 hscl
  have hmsg2 : lookupFS
      (setFile (setFile (setFile fs0 secf 384 (b64FileContent (comment ++ SECSUF)
            (encodeEnckey (genEnckey C sk keynum salt rounds mask)) []))
          pubf 438 (b64FileContent (comment ++ PUBSUF) (encodePubkey (genPubkey pub keynum)) []))
        sigf 438 (b64FileContent (sigCommentOf secf (comment ++ SECSUF))
          (encodeSig { pkalg := PKALG, keynum := keynum, sigdata := C.edSign sk msg })
          (if emb then msg else [])))
      msgf = some (mmode, msg) := by
    rw [lookupFS_setFile_ne _ _ _ _ _ hne6]
    exact hmsg1
  obtain ⟨ms, hsig2⟩ := lookupFS_setFile_self
    (setFile (setFile fs0 secf 384 (b64FileContent (comment ++ SECSUF)
        (encodeEnckey (genEnckey C sk keynum salt rounds mask)) []))
      pubf 438 (b64FileContent (comment ++ PUBSUF) (encodePubkey (genPubkey pub keynum)) []))
    sigf 438 (b64FileContent (sigCommentOf secf (comment ++ SECSUF))
      (encodeSig { pkalg := PKALG, keynum := keynum, sigdata := C.edSign sk msg })
      (if emb then msg else []))
  have hpub2 : lookupFS
      (setFile (setFile (setFile fs0 secf 384 (b64FileContent (comment ++ SECSUF)
            (encodeEnckey (genEnckey C sk keynum salt rounds mask)) []))
          pubf 438 (b64FileContent (comment ++ PUBSUF) (encodePubkey (genPubkey pub keynum)) []))
        sigf 438 (b64FileContent (sigCommentOf secf (comment ++ SECSUF))
          (encodeSig { pkalg := PKALG, keynum := keynum, sigdata := C.edSign sk msg })
          (if emb then msg else [])))
      pubf = some (438,
        b64FileContent (comment ++ PUBSUF) (encodePubkey (genPubkey pub keynum)) []) := by
    rw [lookupFS_setFile_ne _ _ _ _ _ (fun hq => hne5 (Eq.symm hq))]
    refine lookupFS_setFile_self_of_none _ pubf 438 _ ?_
    rw [lookupFS_setFile_ne _ _ _ _ _ hne1]
    exact hpe
  have hsc10 : 10 ∉ sigCommentOf secf (comment ++ SECSUF) :=
    sigCommentOf_no10 secf (comment ++ SECSUF) hs10 h010
  have hver := verifysimple_ok C hC
    (setFile (setFile (setFile fs0 secf 384 (b64FileContent (comment ++ SECSUF)
          (encodeEnckey (genEnckey C sk keynum salt rounds mask)) []))
        pubf 438 (b64FileContent (comment ++ PUBSUF) (encodePubkey (genPubkey pub keynum)) []))
      sigf 438 (b64FileContent (sigCommentOf secf (comment ++ SECSUF))
        (encodeSig { pkalg := PKALG, keynum := keynum, sigdata := C.edSign sk msg })
        (if emb then msg else [])))
    pubf msgf sigf quiet pub keynum sk msg (sigCommentOf secf (comment ++ SECSUF))
    (comment ++ PUBSUF) (if emb then msg else []) mmode ms 438 hmsg2 hsig2 hpub2 hpubne
    hsc10 (by omega) hp10 hplen hkl hkb hpl hpb (hkp msg)
  refine ⟨by rw [hgen], ?_, ?_, ?_⟩
  · simp only [hgen]
    simp only [hsign]
  · simp only [hgen]
    simp only [hsign]
    simp only [hver]
  · intro hemb
    subst hemb
    simp only [hgen]
    simp only [hsign]
    have hvee := verifyembedded_ok C hC
      (setFile (setFile (setFile fs0 secf 384 (b64FileContent (comment ++ SECSUF)
            (encodeEnckey (genEnckey C sk keynum salt rounds mask)) []))
          pubf 438 (b64FileContent (comment ++ PUBSUF)
            (encodePubkey (genPubkey pub keynum)) []))
        sigf 438 (b64FileContent (sigCommentOf secf (comment ++ SECSUF))
          (encodeSig { pkalg := PKALG, keynum := keynum, sigdata := C.edSign sk msg }) msg))
      pubf sigf quiet pub keynum sk msg (sigCommentOf secf (comment ++ SECSUF))
      (comment ++ PUBSUF) ms 438 hsig2 hpub2 hpubne hsc10 (by omega) hp10 hplen hkl hkb
      hpl hpb (hkp msg)
    show (verifyembedded C
      (setFile (setFile (setFile fs0 secf 384 (b64FileContent (comment ++ SECSUF)
            (encodeEnckey (genEnckey C sk keynum salt rounds mask)) []))
          pubf 438 (b64FileContent (comment ++ PUBSUF)
            (encodePubkey (genPubkey pub keynum)) []))
        sigf 438 (b64FileContent (sigCommentOf secf (comment ++ SECSUF))
          (encodeSig { pkalg := PKALG, keynum := keynum, sigdata := C.edSign sk msg }) msg))
      pubf sigf quiet).1 = Except.ok msg
    rw [hvee]

theorem toy_keypair : ∀ m, toyCrypto.edVerify (List.replicate 32 7) m
    (toyCrypto.edSign (List.replicate 64 3) m) = true := by
  intro m
  show (List.replicate 64 7 == List.replicate 32 7 ++ List.replicate 32 7) = true
  decide

theorem c1_witness :
    (generate toyCrypto [([109], 0, [104, 105])] [] (List.replicate 32 7) (List.replicate 64 3)
        (List.replicate 8 1) (List.replicate 16 2) [112] [115] 0 [99]).1 = Except.ok ()
    ∧ (sign toyCrypto
        (generate toyCrypto [([109], 0, [104, 105])] [] (List.replicate 32 7)
          (List.replicate 64 3) (List.replicate 8 1) (List.replicate 16 2) [112] [115] 0
          [99]).2.1 [] [115] [109] [120] true).1 = Except.ok ()
    ∧ (verifysimple toyCrypto
        (sign toyCrypto
          (generate toyCrypto [([109], 0, [104, 105])] [] (List.replicate 32 7)
            (List.replicate 64 3) (List.replicate 8 1) (List.replicate 16 2) [112] [115] 0
            [99]).2.1 [] [115] [109] [120] true).2.1 [112] [109] [120] false).1 = Except.ok ()
    ∧ (true = true →
        (verifyembedded toyCrypto
          (sign toyCrypto
            (generate toyCrypto [([109], 0, [104, 105])] [] (List.replicate 32 7)
              (List.replicate 64 3) (List.replicate 8 1) (List.replicate 16 2) [112] [115] 0
              [99]).2.1 [] [115] [109] [120] true).2.1 [112] [120] false).1 =
          Except.ok [104, 105]) :=
  c1_roundtrip toyCrypto toyCryptoGood (List.replicate 32 7) (List.replicate 64 3)
    (List.replicate 8 1) (List.replicate 16 2) toy_keypair (by decide) (by decide)
    (by decide) (by decide) (by decide) (by decide) (by decide) (by decide) 0 (by decide)
    [] [] (List.replicate 64 0) [] [] [] [] rfl rfl (by decide) (by decide) [99] (by decide)
    (by decide) [([109], 0, [104, 105])] [115] [112] [109] [120] [104, 105] 0 (by decide)
    (by decide) (by decide) (by decide) (by decide) (by decide) (by decide) (by decide)
    (by decide) (by decide) (by decide) true false

end Gosignify
